import Mathlib

/-!
Shallow embedding of the `cancer` terminal-emulator core.

The byte-stream orchestrator `Terminal::handle` is translated from
`src/terminal/terminal.rs`; the renderer cell cache from
`src/renderer/cache.rs`; the sixel accumulator from `src/terminal/sixel.rs`.
Components of the repository that are not under `src/` (the control-sequence
parser, the cursor, the cell/touched/mode helpers, and the Unicode
segmentation used through external crates) are modelled from the
specification; each such definition carries a doc comment saying so.

Bytes are `Nat` (values < 256 in practice), code points are `Nat`, grapheme
clusters are `List Nat` of code points, and colors are four `Nat` channels.
-/

namespace Cancer

/-- RGBA color with four 8-bit channels, standing for `picto::color::Rgba`. -/
structure Rgba where
  r : Nat
  g : Nat
  b : Nat
  a : Nat
deriving DecidableEq, Repr

/-- Modelled from the spec (§3 Style): the attribute bitset
BOLD, FAINT, ITALIC, UNDERLINE, BLINK, REVERSE, INVISIBLE, STRUCK,
represented as one boolean per bit. -/
structure Attributes where
  bold : Bool
  faint : Bool
  italic : Bool
  underline : Bool
  blink : Bool
  reverse : Bool
  invisible : Bool
  struck : Bool
deriving DecidableEq, Repr

def Attributes.clear : Attributes :=
  ⟨false, false, false, false, false, false, false, false⟩

/-- Modelled from the spec (§3 Style): optional foreground and background
colors plus the attribute bitset. Styles are immutable values. -/
structure Style where
  foreground : Option Rgba
  background : Option Rgba
  attributes : Attributes
deriving DecidableEq, Repr

def Style.default : Style := ⟨none, none, Attributes.clear⟩

/-- Cursor shape, from `config::style::Shape`. -/
inductive Shape
  | block
  | line
  | beam
deriving DecidableEq, Repr

/-- Modelled from the spec (§3 Mode): the bitset of boolean terminal modes,
one field per bit. Default state: WRAP on, all others off. -/
structure Mode where
  keyboardLock : Bool
  insert : Bool
  echo : Bool
  crlf : Bool
  appKeypad : Bool
  appCursor : Bool
  reverse : Bool
  wrap : Bool
  focus : Bool
  bracketedPaste : Bool
  blink : Bool
deriving DecidableEq, Repr

def Mode.default : Mode :=
  ⟨false, false, false, false, false, false, false, true, false, false, false⟩

/-- Modelled from the spec (§3 Touched): damage tracker with the three merge
operations mark(x,y), line(y) and all, stored as recorded marks plus the
touch-all flag. -/
structure Touched where
  all : Bool
  lines : List Nat
  cells : List (Nat × Nat)
deriving DecidableEq, Repr

def Touched.default : Touched := ⟨false, [], []⟩

def Touched.mark (tc : Touched) (x y : Nat) : Touched :=
  { tc with cells := (x, y) :: tc.cells }

def Touched.line (tc : Touched) (y : Nat) : Touched :=
  { tc with lines := y :: tc.lines }

def Touched.setAll (tc : Touched) : Touched :=
  { tc with all := true }

/-- Grid cell, from the spec's cell model (§3): Empty, Occupied with a
grapheme cluster (list of code points) and style, or a Reference holding the
offset back to the base column of a wide glyph. -/
inductive Cell
  | empty (style : Style)
  | occupied (value : List Nat) (style : Style)
  | reference (offset : Nat)
deriving DecidableEq, Repr

/-- Cursor state: position, style, visibility, blink, shape, background. -/
structure Cursor where
  x : Nat
  y : Nat
  style : Style
  visible : Bool
  blink : Bool
  shape : Shape
  background : Rgba
deriving DecidableEq, Repr

/-- Configuration inputs consumed by the terminal (§6 Config inputs): default
foreground/background colors, cursor background, and the 256-entry palette. -/
structure Config where
  foreground : Rgba
  background : Rgba
  cursorBackground : Rgba
  palette : List Rgba
deriving DecidableEq, Repr

/-! ## Unicode model

Modelled from the spec (§4.2 Raw text, Glossary): raw byte runs are decoded
as UTF-8, split into grapheme clusters, and measured in display columns.
This stands for the external `unicode-segmentation` and `unicode-width`
crates: combining marks U+0300..U+036F attach to the preceding cluster and
have width 0; East Asian wide code points have width 2; everything else has
width 1. Invalid bytes decode to U+FFFD; a truncated trailing multi-byte
sequence is reported so the parser can signal an incomplete item. -/

/-- True for UTF-8 continuation bytes 0x80..0xBF. -/
def utf8Cont (b : Nat) : Bool := decide (0x80 ≤ b ∧ b < 0xC0)

def consFst (c : Nat) : List Nat × Bool → List Nat × Bool
  | (l, fl) => (c :: l, fl)

/-- Lossy UTF-8 decoding with a fuel argument (one unit per decoded item;
the wrapper below supplies the list length, which always suffices because
every step consumes at least one byte): returns the decoded code points and
a flag that is true when the list ends in a proper prefix of a valid
multi-byte sequence. -/
def utf8GoF : Nat → List Nat → List Nat × Bool
  | 0, _ => ([], false)
  | _ + 1, [] => ([], false)
  | f + 1, b :: r =>
    if b < 0x80 then consFst b (utf8GoF f r)
    else if b < 0xC0 then consFst 0xFFFD (utf8GoF f r)
    else if b < 0xE0 then
      match r with
      | [] => ([], true)
      | c1 :: r1 =>
        if utf8Cont c1 then consFst ((b - 0xC0) * 0x40 + (c1 - 0x80)) (utf8GoF f r1)
        else consFst 0xFFFD (utf8GoF f r)
    else if b < 0xF0 then
      match r with
      | [] => ([], true)
      | [c1] => if utf8Cont c1 then ([], true) else consFst 0xFFFD (utf8GoF f [c1])
      | c1 :: c2 :: r2 =>
        if utf8Cont c1 ∧ utf8Cont c2 then
          consFst ((b - 0xE0) * 0x1000 + (c1 - 0x80) * 0x40 + (c2 - 0x80)) (utf8GoF f r2)
        else consFst 0xFFFD (utf8GoF f (c1 :: c2 :: r2))
    else if b < 0xF8 then
      match r with
      | [] => ([], true)
      | [c1] => if utf8Cont c1 then ([], true) else consFst 0xFFFD (utf8GoF f [c1])
      | [c1, c2] =>
        if utf8Cont c1 ∧ utf8Cont c2 then ([], true) else consFst 0xFFFD (utf8GoF f [c1, c2])
      | c1 :: c2 :: c3 :: r3 =>
        if utf8Cont c1 ∧ utf8Cont c2 ∧ utf8Cont c3 then
          consFst ((b - 0xF0) * 0x40000 + (c1 - 0x80) * 0x1000 + (c2 - 0x80) * 0x40 + (c3 - 0x80))
            (utf8GoF f r3)
        else consFst 0xFFFD (utf8GoF f (c1 :: c2 :: c3 :: r3))
    else consFst 0xFFFD (utf8GoF f r)

def utf8Go (l : List Nat) : List Nat × Bool := utf8GoF l.length l

def utf8Decode (l : List Nat) : List Nat := (utf8Go l).1

def utf8Truncated (l : List Nat) : Bool := (utf8Go l).2

/-- Combining marks (U+0300..U+036F in this model) extend the previous
grapheme cluster and occupy no columns. -/
def isCombining (c : Nat) : Bool := decide (0x300 ≤ c ∧ c ≤ 0x36F)

/-- East Asian wide code points (model of the ranges relevant here). -/
def isWide (c : Nat) : Bool :=
  decide ((0x1100 ≤ c ∧ c ≤ 0x115F) ∨ (0x2E80 ≤ c ∧ c ≤ 0x303E) ∨
    (0x3041 ≤ c ∧ c ≤ 0x33FF) ∨ (0x3400 ≤ c ∧ c ≤ 0x4DBF) ∨
    (0x4E00 ≤ c ∧ c ≤ 0x9FFF) ∨ (0xA000 ≤ c ∧ c ≤ 0xA4CF) ∨
    (0xAC00 ≤ c ∧ c ≤ 0xD7A3) ∨ (0xF900 ≤ c ∧ c ≤ 0xFAFF) ∨
    (0xFE30 ≤ c ∧ c ≤ 0xFE4F) ∨ (0xFF00 ≤ c ∧ c ≤ 0xFF60) ∨
    (0xFFE0 ≤ c ∧ c ≤ 0xFFE6))

def cpWidth (c : Nat) : Nat :=
  if isCombining c then 0 else if isWide c then 2 else 1

/-- Grapheme segmentation over an already-started cluster. -/
def clustersGo (cur : List Nat) : List Nat → List (List Nat)
  | [] => [cur]
  | c :: r =>
    if isCombining c then clustersGo (cur ++ [c]) r
    else cur :: clustersGo [c] r

/-- Split a code-point sequence into grapheme clusters. -/
def clusters : List Nat → List (List Nat)
  | [] => []
  | c :: r => clustersGo [c] r

/-- Display width of a grapheme cluster: sum of its code-point widths. -/
def clusterWidth (g : List Nat) : Nat := (g.map cpWidth).sum

/-! ## Control parser

Modelled from the spec (§4.1): the parser produces one item at a time from the
head of the byte buffer.  A buffer that could still grow into a complete
sequence (a trailing lone ESC, a trailing `ESC #`, an unterminated CSI or OSC,
or a raw run whose trailing bytes are a proper prefix of a UTF-8 sequence)
yields `incomplete`; the orchestrator then caches the remaining input.
`ESC 7/8/=/>` and `ESC # 6/8/9` are decoded by the orchestrator itself in
`src/terminal/terminal.rs`, so for those the parser emits the bare `escape`
item with the following byte(s) left in the rest, guaranteeing that the one
or two bytes the orchestrator reads are present. -/

/-- Erase extent of CSI J / CSI K. -/
inductive Erase
  | toEnd
  | toStart
  | all
deriving DecidableEq, Repr

/-- ANSI modes addressed by plain CSI h / CSI l. -/
inductive CSIMode
  | keyboardAction
  | insertionReplacement
  | sendReceive
  | lineFeed
  | otherMode (n : Nat)
deriving DecidableEq, Repr

/-- SGR color specification. -/
inductive SGRColor
  | default
  | transparent
  | index (i : Nat)
  | rgb (r g b : Nat)
deriving DecidableEq, Repr

/-- SGR parameters (§4.1 SGR parameters). -/
inductive SGRAttr
  | reset
  | weightNormal
  | weightBold
  | weightFaint
  | italic (v : Bool)
  | underline (v : Bool)
  | blink (v : Bool)
  | reverse (v : Bool)
  | invisible (v : Bool)
  | struck (v : Bool)
  | foreground (c : SGRColor)
  | background (c : SGRColor)
deriving DecidableEq, Repr

/-- Decoded CSI variants (§4.1); `priv` is the DEC private form with a `?`
marker, carrying the final byte, the first intermediate byte if any, and the
numeric parameters. -/
inductive CSI
  | cursorPosition (x y : Nat)
  | cursorUp (n : Nat)
  | cursorDown (n : Nat)
  | cursorBack (n : Nat)
  | cursorForward (n : Nat)
  | linePosition (n : Nat)
  | eraseDisplay (e : Erase)
  | eraseLine (e : Erase)
  | insertLine (n : Nat)
  | deleteLine (n : Nat)
  | deviceAttributes (n : Nat)
  | setMode (modes : List CSIMode)
  | resetMode (modes : List CSIMode)
  | priv (final : Nat) (inter : Option Nat) (args : List (Option Nat))
  | saveCursor
  | restoreCursor
  | sgr (attrs : List SGRAttr)
  | unknown (final : Nat) (inter : Option Nat) (args : List (Option Nat))
deriving DecidableEq, Repr

/-- Parsed control item: bare ESC, C0 control byte, CSI sequence, C1 NEL,
OSC string payload (as code points), or a raw text run (as code points). -/
inductive Item
  | escape
  | c0 (b : Nat)
  | csi (c : CSI)
  | nextLine
  | osc (cmd : List Nat)
  | raw (cps : List Nat)
deriving DecidableEq, Repr

/-- Result of parsing one item from the head of the buffer. -/
inductive ParseResult
  | incomplete
  | done (rest : List Nat) (item : Item)
deriving DecidableEq, Repr

/-- Parameter/intermediate bytes of a CSI sequence (0x20..0x3F). -/
def csiBody (b : Nat) : Bool := decide (0x20 ≤ b ∧ b ≤ 0x3F)

/-- Final byte of a CSI sequence (0x40..0x7E). -/
def csiFinal (b : Nat) : Bool := decide (0x40 ≤ b ∧ b ≤ 0x7E)

/-- Numeric parameters: `;`-separated decimal numbers, empty slots decoding
to `none`. -/
def paramsGo (cur : Option Nat) : List Nat → List (Option Nat)
  | [] => [cur]
  | b :: r =>
    if b = 0x3B then cur :: paramsGo none r
    else if 0x30 ≤ b ∧ b ≤ 0x39 then paramsGo (some ((cur.getD 0) * 10 + (b - 0x30))) r
    else paramsGo cur r

def argsOf (pre : List Nat) : List (Option Nat) := paramsGo none pre

/-- First intermediate byte (0x20..0x2F), if any. -/
def interOf (pre : List Nat) : Option Nat :=
  (pre.filter (fun b => decide (0x20 ≤ b ∧ b ≤ 0x2F))).head?

def argN (args : List (Option Nat)) (n d : Nat) : Nat := ((args.getD n none).getD d)

def eraseOf (n : Nat) : Erase :=
  if n = 0 then .toEnd else if n = 1 then .toStart else .all

def modeOf (a : Option Nat) : CSIMode :=
  match a with
  | some 2 => .keyboardAction
  | some 4 => .insertionReplacement
  | some 12 => .sendReceive
  | some 20 => .lineFeed
  | a => .otherMode (a.getD 0)

/-- SGR parameter decoding (§4.1); unrecognized codes are skipped. -/
def parseSgr : List Nat → List SGRAttr
  | [] => []
  | 0 :: r => .reset :: parseSgr r
  | 1 :: r => .weightBold :: parseSgr r
  | 2 :: r => .weightFaint :: parseSgr r
  | 3 :: r => .italic true :: parseSgr r
  | 4 :: r => .underline true :: parseSgr r
  | 5 :: r => .blink true :: parseSgr r
  | 7 :: r => .reverse true :: parseSgr r
  | 8 :: r => .invisible true :: parseSgr r
  | 9 :: r => .struck true :: parseSgr r
  | 22 :: r => .weightNormal :: parseSgr r
  | 23 :: r => .italic false :: parseSgr r
  | 24 :: r => .underline false :: parseSgr r
  | 25 :: r => .blink false :: parseSgr r
  | 27 :: r => .reverse false :: parseSgr r
  | 28 :: r => .invisible false :: parseSgr r
  | 29 :: r => .struck false :: parseSgr r
  | 38 :: 5 :: n :: r => .foreground (.index n) :: parseSgr r
  | 38 :: 2 :: cr :: cg :: cb :: r => .foreground (.rgb cr cg cb) :: parseSgr r
  | 39 :: r => .foreground .default :: parseSgr r
  | 48 :: 5 :: n :: r => .background (.index n) :: parseSgr r
  | 48 :: 2 :: cr :: cg :: cb :: r => .background (.rgb cr cg cb) :: parseSgr r
  | 49 :: r => .background .default :: parseSgr r
  | n :: r =>
    if 30 ≤ n ∧ n ≤ 37 then .foreground (.index (n - 30)) :: parseSgr r
    else if 40 ≤ n ∧ n ≤ 47 then .background (.index (n - 40)) :: parseSgr r
    else if 90 ≤ n ∧ n ≤ 97 then .foreground (.index (n - 90 + 8)) :: parseSgr r
    else if 100 ≤ n ∧ n ≤ 107 then .background (.index (n - 100 + 8)) :: parseSgr r
    else parseSgr r

/-- Map a complete CSI body (parameter/intermediate bytes) and final byte to
the decoded variant.  CSI cursor coordinates stay 1-based here; the cursor
clamps them (§4.2: Position coordinates in CSI are 1-based; clamp to area). -/
def decodeCsi (pre : List Nat) (f : Nat) : CSI :=
  if pre.head? = some 0x3F then
    let args := argsOf pre.tail
    if f = 0x68 ∨ f = 0x6C then .priv f (interOf pre.tail) args
    else .unknown f (interOf pre.tail) args
  else
    let args := argsOf pre
    let inter := interOf pre
    if f = 0x41 then .cursorUp (argN args 0 1)
    else if f = 0x42 then .cursorDown (argN args 0 1)
    else if f = 0x43 then .cursorForward (argN args 0 1)
    else if f = 0x44 then .cursorBack (argN args 0 1)
    else if f = 0x48 ∨ f = 0x66 then .cursorPosition (argN args 1 1) (argN args 0 1)
    else if f = 0x64 then .linePosition (argN args 0 1)
    else if f = 0x4A then .eraseDisplay (eraseOf (argN args 0 0))
    else if f = 0x4B then .eraseLine (eraseOf (argN args 0 0))
    else if f = 0x4C then .insertLine (argN args 0 1)
    else if f = 0x4D then .deleteLine (argN args 0 1)
    else if f = 0x63 then .deviceAttributes (argN args 0 0)
    else if f = 0x68 then .setMode (args.map modeOf)
    else if f = 0x6C then .resetMode (args.map modeOf)
    else if f = 0x73 then .saveCursor
    else if f = 0x75 then .restoreCursor
    else if f = 0x6D then .sgr (parseSgr (args.map (fun a => a.getD 0)))
    else .unknown f inter args

/-- CSI: body bytes up to the final byte; `incomplete` while no final byte
has arrived. -/
def parseCsi (r : List Nat) : ParseResult :=
  match r.dropWhile csiBody with
  | [] => .incomplete
  | f :: r2 =>
    if csiFinal f then .done r2 (.csi (decodeCsi (r.takeWhile csiBody) f))
    else .done r2 (.csi (.unknown f (interOf (r.takeWhile csiBody)) (argsOf (r.takeWhile csiBody))))

/-- OSC payload: scan to BEL or ST; `acc` holds the payload bytes reversed. -/
def parseOsc : List Nat → List Nat → ParseResult
  | [], _ => .incomplete
  | b :: r, acc =>
    if b = 0x07 then .done r (.osc (utf8Decode acc.reverse))
    else if b = 0x1B then
      match r with
      | [] => .incomplete
      | c :: r2 =>
        if c = 0x5C then .done r2 (.osc (utf8Decode acc.reverse))
        else parseOsc (c :: r2) (0x1B :: acc)
    else parseOsc r (b :: acc)

/-- Escape dispatch: `ESC [` opens CSI, `ESC ]` opens OSC, `ESC E` is NEL;
`ESC #` needs one more byte; everything else is handed to the orchestrator
as a bare `escape` with the rest of the buffer. -/
def parseEsc : List Nat → ParseResult
  | [] => .incomplete
  | c :: r =>
    if c = 0x5B then parseCsi r
    else if c = 0x5D then parseOsc r []
    else if c = 0x45 then .done r .nextLine
    else if c = 0x23 then
      match r with
      | [] => .incomplete
      | _ :: _ => .done (c :: r) .escape
    else .done (c :: r) .escape

/-- Raw text: the maximal run of non-control bytes, decoded as UTF-8; when
the run reaches the end of the buffer and ends inside a multi-byte sequence,
the item is incomplete. -/
def parseRaw (buf : List Nat) : ParseResult :=
  let run := buf.takeWhile (fun b => decide (0x20 ≤ b))
  let rest := buf.dropWhile (fun b => decide (0x20 ≤ b))
  if rest = [] ∧ utf8Truncated run then .incomplete
  else .done rest (.raw (utf8Decode run))

/-- Parse one control item or raw run from the head of the buffer. -/
def parse : List Nat → ParseResult
  | [] => .incomplete
  | b :: r =>
    if b = 0x1B then parseEsc r
    else if b < 0x20 then .done r (.c0 b)
    else parseRaw (b :: r)

/-! ## Cursor travel

Modelled from the spec (§4.2 Cursor travel, §4.3): travel applies the op,
clamping to the area; Position coordinates are the 1-based CSI coordinates
(0 is treated as 1, the value is clamped to the area); Down past the last
visible row returns the number of fresh rows the caller must append. -/

inductive Travel
  | position (mx : Option Nat) (my : Option Nat)
  | up (n : Nat)
  | down (n : Nat)
  | left (n : Nat)
  | right (n : Nat)
deriving DecidableEq, Repr

def Cursor.travel (w h : Nat) (c : Cursor) : Travel → Cursor × Option Nat
  | .position mx my =>
    ({ c with
        x := match mx with | some v => min (v - 1) (w - 1) | none => c.x,
        y := match my with | some v => min (v - 1) (h - 1) | none => c.y }, none)
  | .up n => ({ c with y := c.y - n }, none)
  | .down n =>
    if c.y + n < h then ({ c with y := c.y + n }, none)
    else ({ c with y := h - 1 }, some (c.y + n - (h - 1)))
  | .left n => ({ c with x := c.x - n }, none)
  | .right n => ({ c with x := min (c.x + n) (w - 1) }, none)

/-! ## Terminal state and `handle` (from `src/terminal/terminal.rs`)

`VecDeque` becomes `List`; shared `Rc<Style>` handles become plain values.
The `output` sink (only used for the Device Attributes identity reply) and
the returned `Action` sequence (window titles) are not part of the state and
are omitted; everything else of `Terminal` is embedded. -/

structure Terminal where
  config : Config
  width : Nat
  height : Nat
  cache : Option (List Nat)
  touched : Touched
  mode : Mode
  rows : List (List Cell)
  scroll : Option Nat
  cursor : Cursor
  saved : Option Cursor
deriving DecidableEq, Repr

namespace Terminal

/-- The index into `rows` of visible row `y` (the `term!(row for y)` macro). -/
def rowFor (t : Terminal) (y : Nat) : Nat :=
  y + t.scroll.getD (t.rows.length - t.height)

/-- Read the cell at visible position (x, y). -/
def getCell (t : Terminal) (x y : Nat) : Cell :=
  (t.rows.getD (t.rowFor y) []).getD x (Cell.empty Style.default)

/-- Replace the cell at visible position (x, y) (the `term!(mut cell x, y)`
macro; out-of-range indices panic in Rust and are no-ops here). -/
def putCell (t : Terminal) (x y : Nat) (c : Cell) : Terminal :=
  { t with rows := t.rows.set (t.rowFor y) ((t.rows.getD (t.rowFor y) []).set x c) }

/-- Append one fresh row of empty cells in the cursor style
(the `term!(extend)` macro). -/
def extend (t : Terminal) : Terminal :=
  { t with rows := t.rows ++ [List.replicate t.width (Cell.empty t.cursor.style)] }

def extendN : Terminal → Nat → Terminal
  | t, 0 => t
  | t, n + 1 => extendN t.extend n

/-- The `term!(cursor ...)` macro: travel, and on overflow touch-all and
extend the grid by the requested number of rows. -/
def move (t : Terminal) (tr : Travel) : Terminal :=
  match Cursor.travel t.width t.height t.cursor tr with
  | (c, none) => { t with cursor := c }
  | (c, some n) => extendN { t with cursor := c, touched := t.touched.setAll } n

def eraseCell (t : Terminal) (x y : Nat) : Terminal :=
  t.putCell x y (Cell.empty t.cursor.style)

/-- CSI J 0: erase from the cursor to the end of the display.  (As in the
source, the row loop starts at the cursor row, so the whole cursor row is
cleared, not just its tail.) -/
def eraseDisplayToEnd (t : Terminal) : Terminal :=
  let t1 := (List.range' t.cursor.x (t.width - t.cursor.x)).foldl
    (fun a x => (eraseCell { a with touched := a.touched.mark x t.cursor.y } x t.cursor.y)) t
  (List.range' t1.cursor.y (t1.height - t1.cursor.y)).foldl
    (fun a y =>
      (List.range a.width).foldl (fun b x => eraseCell b x y)
        { a with touched := a.touched.line y }) t1

/-- CSI J 1: erase from the start of the display to the cursor (exclusive). -/
def eraseDisplayToStart (t : Terminal) : Terminal :=
  let t1 := (List.range t.cursor.x).foldl
    (fun a x => (eraseCell { a with touched := a.touched.mark x t.cursor.y } x t.cursor.y)) t
  (List.range t1.cursor.y).foldl
    (fun a y =>
      (List.range a.width).foldl (fun b x => eraseCell b x y)
        { a with touched := a.touched.line y }) t1

/-- CSI J 2: erase the whole display. -/
def eraseDisplayAll (t : Terminal) : Terminal :=
  (List.range t.height).foldl
    (fun a y => (List.range a.width).foldl (fun b x => eraseCell b x y) a)
    { t with touched := t.touched.setAll }

/-- CSI K 0: erase from the cursor to the end of the line. -/
def eraseLineToEnd (t : Terminal) : Terminal :=
  (List.range' t.cursor.x (t.width - t.cursor.x)).foldl
    (fun a x => (eraseCell { a with touched := a.touched.mark x t.cursor.y } x t.cursor.y)) t

/-- CSI K 1: erase from the start of the line to the cursor (exclusive). -/
def eraseLineToStart (t : Terminal) : Terminal :=
  (List.range t.cursor.x).foldl
    (fun a x => (eraseCell { a with touched := a.touched.mark x t.cursor.y } x t.cursor.y)) t

/-- CSI K 2: erase the whole cursor line. -/
def eraseLineAll (t : Terminal) : Terminal :=
  (List.range t.width).foldl (fun a x => eraseCell a x t.cursor.y)
    { t with touched := t.touched.line t.cursor.y }

/-- CSI M: remove n rows at the cursor line and append n fresh rows. -/
def deleteLine (t : Terminal) (n : Nat) : Terminal :=
  let y := t.cursor.y
  let row := t.rowFor y
  let t1 := { t with rows := t.rows.take row ++ t.rows.drop (row + n) }
  let t2 := extendN t1 n
  (List.range' y (t2.height - y)).foldl (fun a yy => { a with touched := a.touched.line yy }) t2

/-- CSI L: split at the cursor line, append n fresh rows, and keep only the
first (height - y - n) rows of the tail. -/
def insertLine (t : Terminal) (n : Nat) : Terminal :=
  let y := t.cursor.y
  let row := t.rowFor y
  let rest := t.rows.drop row
  let t1 := extendN { t with rows := t.rows.take row } n
  let t2 := { t1 with rows := t1.rows ++ rest.take (t.height - y - n) }
  (List.range' y (t2.height - y)).foldl (fun a yy => { a with touched := a.touched.line yy }) t2

/-- DECALN (`ESC # 8`): fill the visible rows with occupied "E" (U+0045)
cells in the current cursor style and touch-all. -/
def decaln (t : Terminal) : Terminal :=
  let newRows :=
    (List.range t.height).foldl
      (fun rs y => rs.set (t.rowFor y)
        ((rs.getD (t.rowFor y) []).map (fun _ => Cell.occupied [0x45] t.cursor.style)))
      t.rows
  let t1 := { t with rows := newRows }
  { t1 with touched := t1.touched.setAll }

/-- DECBI (`ESC # 6`): at the left edge, shift rows right by one column
(the loop runs over absolute indices `rowFor 0 .. height` as in the source);
otherwise move left. -/
def decbi (t : Terminal) : Terminal :=
  if t.cursor.x = 0 then
    let r0 := t.rowFor 0
    let newRows :=
      (List.range' r0 (t.height - r0)).foldl
        (fun rs y => rs.set y (Cell.empty t.cursor.style :: (rs.getD y []).dropLast)) t.rows
    { t with rows := newRows }
  else t.move (.left 1)

/-- DECFI (`ESC # 9`): at the right edge, shift rows left by one column;
otherwise move right. -/
def decfi (t : Terminal) : Terminal :=
  if t.cursor.x = t.width - 1 then
    let r0 := t.rowFor 0
    let newRows :=
      (List.range' r0 (t.height - r0)).foldl
        (fun rs y => rs.set y ((rs.getD y []).tail ++ [Cell.empty t.cursor.style])) t.rows
    { t with rows := newRows }
  else t.move (.right 1)

/-- `to_rgba`: resolve an SGR color against the configuration. -/
def toRgba (color : SGRColor) (config : Config) (fg : Bool) : Rgba :=
  match color with
  | .default => if fg then config.foreground else config.background
  | .transparent => ⟨0, 0, 0, 0⟩
  | .index i => config.palette.getD i ⟨0, 0, 0, 255⟩
  | .rgb r g b => ⟨r, g, b, 255⟩

/-- One SGR attribute applied to a style (the SGR arm's match body). -/
def applySgr (config : Config) (style : Style) : SGRAttr → Style
  | .reset => Style.default
  | .weightNormal => { style with attributes := { style.attributes with bold := false, faint := false } }
  | .weightBold => { style with attributes := { style.attributes with faint := false, bold := true } }
  | .weightFaint => { style with attributes := { style.attributes with bold := false, faint := true } }
  | .italic v => { style with attributes := { style.attributes with italic := v } }
  | .underline v => { style with attributes := { style.attributes with underline := v } }
  | .blink v => { style with attributes := { style.attributes with blink := v } }
  | .reverse v => { style with attributes := { style.attributes with reverse := v } }
  | .invisible v => { style with attributes := { style.attributes with invisible := v } }
  | .struck v => { style with attributes := { style.attributes with struck := v } }
  | .foreground c => { style with foreground := some (toRgba c config true) }
  | .background c => { style with background := some (toRgba c config false) }

/-- DECSCUSR (`CSI Ps SP q`): select cursor blink and shape. -/
def decscusr (t : Terminal) (args : List (Option Nat)) : Terminal :=
  let n := argN args 0 0
  if n = 0 ∨ n = 1 then { t with cursor := { t.cursor with blink := true, shape := .block } }
  else if n = 2 then { t with cursor := { t.cursor with blink := false, shape := .block } }
  else if n = 3 then { t with cursor := { t.cursor with blink := true, shape := .line } }
  else if n = 4 then { t with cursor := { t.cursor with blink := false, shape := .line } }
  else if n = 5 then { t with cursor := { t.cursor with blink := true, shape := .beam } }
  else if n = 6 then { t with cursor := { t.cursor with blink := false, shape := .beam } }
  else t

/-- Modelled from the spec (§6 OSC): parse `#rrggbb` or `#rrggbbaa` color
descriptions (named palette entries are not modelled). -/
def hexDigit (b : Nat) : Option Nat :=
  if 0x30 ≤ b ∧ b ≤ 0x39 then some (b - 0x30)
  else if 0x41 ≤ b ∧ b ≤ 0x46 then some (b - 0x41 + 10)
  else if 0x61 ≤ b ∧ b ≤ 0x66 then some (b - 0x61 + 10)
  else none

def hexPair (hi lo : Nat) : Option Nat :=
  match hexDigit hi, hexDigit lo with
  | some h, some l => some (h * 16 + l)
  | _, _ => none

def toColor : List Nat → Option Rgba
  | [0x23, r1, r2, g1, g2, b1, b2] =>
    match hexPair r1 r2, hexPair g1 g2, hexPair b1 b2 with
    | some r, some g, some b => some ⟨r, g, b, 255⟩
    | _, _, _ => none
  | [0x23, r1, r2, g1, g2, b1, b2, a1, a2] =>
    match hexPair r1 r2, hexPair g1 g2, hexPair b1 b2, hexPair a1 a2 with
    | some r, some g, some b, some a => some ⟨r, g, b, a⟩
    | _, _, _, _ => none
  | _ => none

/-- Write one grapheme cluster at the cursor (the body of the raw-text loop):
wrap down when it overflows the area, skip the write when the target is a
Reference cell or holds the identical value and style, otherwise occupy the
target and lay down the Reference continuation cells, then advance. -/
def writeGrapheme (t : Terminal) (g : List Nat) : Terminal :=
  let w := clusterWidth g
  let t :=
    if t.cursor.x + w > t.width then (t.move (.down 1)).move (.position (some 1) none)
    else t
  let x := t.cursor.x
  let y := t.cursor.y
  let changed : Bool :=
    match t.getCell x y with
    | .empty _ => true
    | .occupied v s => decide (v ≠ g ∨ s ≠ t.cursor.style)
    | .reference _ => false
  let t :=
    if changed then
      let t1 := t.putCell x y (.occupied g t.cursor.style)
      let t1 := { t1 with touched := t1.touched.mark x y }
      (List.range (w - 1)).foldl (fun a i => a.putCell (x + 1 + i) y (.reference (i + 1))) t1
    else t
  t.move (.right w)

/-- The fold body of the `CSI::Private(b'h', ...)` arm. -/
def privSet (a : Terminal) (arg : Option Nat) : Terminal :=
  if arg = some 1 then { a with mode := { a.mode with appCursor := true } }
  else if arg = some 5 then { a with mode := { a.mode with reverse := true } }
  else if arg = some 7 then { a with mode := { a.mode with wrap := true } }
  else if arg = some 25 then { a with cursor := { a.cursor with visible := false } }
  else if arg = some 1004 then { a with mode := { a.mode with focus := true } }
  else if arg = some 2004 then { a with mode := { a.mode with bracketedPaste := true } }
  else a

/-- The fold body of the `CSI::Private(b'l', ...)` arm. -/
def privReset (a : Terminal) (arg : Option Nat) : Terminal :=
  if arg = some 1 then { a with mode := { a.mode with appCursor := false } }
  else if arg = some 5 then { a with mode := { a.mode with reverse := false } }
  else if arg = some 7 then { a with mode := { a.mode with wrap := false } }
  else if arg = some 25 then { a with cursor := { a.cursor with visible := true } }
  else if arg = some 1004 then { a with mode := { a.mode with focus := false } }
  else if arg = some 2004 then { a with mode := { a.mode with bracketedPaste := false } }
  else a

/-- The `OSC cursor:*` arm. -/
def oscCursor (t : Terminal) (cmd : List Nat) : Terminal :=
  let parts := cmd.splitOn 0x3A
  let p1 := parts.getD 1 []
  if p1 = [0x73, 0x68, 0x6F, 0x77] then { t with cursor := { t.cursor with visible := true } }
  else if p1 = [0x68, 0x69, 0x64, 0x65] then
    { t with cursor := { t.cursor with visible := false } }
  else if p1 = [0x62, 0x61, 0x63, 0x6B, 0x67, 0x72, 0x6F, 0x75, 0x6E, 0x64] then
    let desc := (parts.drop 2).headD [0x2D]
    let bg := (toColor desc).getD t.config.cursorBackground
    { t with cursor := { t.cursor with background := bg } }
  else t

/-- The match arms of `Terminal::handle` for every item except the bare
escape (whose arm additionally consumes buffer bytes, see `stepEscape`). -/
def applyItem (t : Terminal) : Item → Terminal
  | .escape => t
  | .c0 b =>
    if b = 0x0D then t.move (.position (some 0) none)
    else if b = 0x0A then t.move (.down 1)
    else if b = 0x08 then t.move (.left 1)
    else t
  | .nextLine => (t.move (.down 1)).move (.position (some 0) none)
  | .csi (.deviceAttributes _) => t
  | .csi (.setMode ms) =>
    ms.foldl (fun a m =>
      match m with
      | .keyboardAction => { a with mode := { a.mode with keyboardLock := true } }
      | .insertionReplacement => { a with mode := { a.mode with insert := true } }
      | .sendReceive => { a with mode := { a.mode with echo := true } }
      | .lineFeed => { a with mode := { a.mode with crlf := true } }
      | .otherMode _ => a) t
  | .csi (.resetMode ms) =>
    ms.foldl (fun a m =>
      match m with
      | .keyboardAction => { a with mode := { a.mode with keyboardLock := false } }
      | .insertionReplacement => { a with mode := { a.mode with insert := false } }
      | .sendReceive => { a with mode := { a.mode with echo := false } }
      | .lineFeed => { a with mode := { a.mode with crlf := false } }
      | .otherMode _ => a) t
  | .csi (.priv f inter args) =>
    if f = 0x68 ∧ inter = none then args.foldl privSet t
    else if f = 0x6C ∧ inter = none then args.foldl privReset t
    else t
  | .csi .saveCursor => { t with saved := some t.cursor }
  | .csi .restoreCursor =>
    (match t.saved with
     | some c => { t with cursor := c, saved := none }
     | none => t)
  | .csi (.cursorPosition x y) => t.move (.position (some x) (some y))
  | .csi (.cursorUp n) => t.move (.up n)
  | .csi (.cursorDown n) => t.move (.down n)
  | .csi (.cursorBack n) => t.move (.left n)
  | .csi (.cursorForward n) => t.move (.right n)
  | .csi (.linePosition n) => t.move (.position none (some n))
  | .csi (.eraseDisplay .toEnd) => t.eraseDisplayToEnd
  | .csi (.eraseDisplay .toStart) => t.eraseDisplayToStart
  | .csi (.eraseDisplay .all) => t.eraseDisplayAll
  | .csi (.eraseLine .toEnd) => t.eraseLineToEnd
  | .csi (.eraseLine .toStart) => t.eraseLineToStart
  | .csi (.eraseLine .all) => t.eraseLineAll
  | .csi (.deleteLine n) => t.deleteLine n
  | .csi (.insertLine n) => t.insertLine n
  | .raw cps => (clusters cps).foldl writeGrapheme t
  | .csi (.sgr attrs) =>
    { t with cursor := { t.cursor with style := attrs.foldl (applySgr t.config) t.cursor.style } }
  | .csi (.unknown f inter args) =>
    if f = 0x71 ∧ inter = some 0x20 then t.decscusr args else t
  | .osc cmd =>
    if [0x63, 0x75, 0x72, 0x73, 0x6F, 0x72, 0x3A].isPrefixOf cmd then t.oscCursor cmd
    else t

/-- The bare-ESC arm of `Terminal::handle`: it reads the byte after ESC (and
for `#` one further byte) straight from the buffer. -/
def stepEscape (t : Terminal) (input : List Nat) : Terminal × List Nat :=
  match input with
  | [] => (t, [])
  | code :: input1 =>
    if code = 0x23 then
      match input1 with
      | [] => (t, [])
      | code2 :: input2 =>
        if code2 = 0x38 then (t.decaln, input2)
        else if code2 = 0x36 then (t.decbi, input2)
        else if code2 = 0x39 then (t.decfi, input2)
        else (t, input2)
    else if code = 0x37 then ({ t with saved := some t.cursor }, input1)
    else if code = 0x38 then
      (match t.saved with
       | some c => ({ t with cursor := c, saved := none }, input1)
       | none => (t, input1))
    else if code = 0x3D then ({ t with mode := { t.mode with appKeypad := true } }, input1)
    else if code = 0x3E then ({ t with mode := { t.mode with appKeypad := false } }, input1)
    else (t, input1)

/-- Process one parsed item against the state and the remaining buffer. -/
def step (t : Terminal) (it : Item) (input : List Nat) : Terminal × List Nat :=
  match it with
  | .escape => t.stepEscape input
  | it => (t.applyItem it, input)

/-- The `handle` processing loop with explicit fuel (one unit per parsed
item; each item consumes at least one byte, so `buf.length + 1` suffices):
parse items until the buffer is empty or an incomplete tail is cached. -/
def processF : Nat → Terminal → List Nat → Terminal
  | 0, t, _ => t
  | f + 1, t, buf =>
    if buf = [] then t
    else
      match parse buf with
      | .incomplete => { t with cache := some buf }
      | .done rest it => processF f (t.step it rest).1 (t.step it rest).2

def process (t : Terminal) (buf : List Nat) : Terminal :=
  processF (buf.length + 1) t buf

/-- `Terminal::handle`: take the cached incomplete tail, prepend it to the
input, and run the processing loop. -/
def handle (t : Terminal) (input : List Nat) : Terminal :=
  process { t with cache := none } (t.cache.getD [] ++ input)

/-- `Terminal::open`: a rows x cols grid of empty cells in the default
style. -/
def opened (config : Config) (width height : Nat) : Terminal :=
  { config := config
    width := width
    height := height
    cache := none
    touched := Touched.default
    mode := Mode.default
    rows := List.replicate height (List.replicate width (Cell.empty Style.default))
    scroll := none
    cursor :=
      { x := 0, y := 0, style := Style.default, visible := true, blink := false,
        shape := .block, background := config.cursorBackground }
    saved := none }

/-- `Terminal::resize`: the body ignores its arguments and returns an empty
iterator of dirty coordinates; the state is untouched. -/
def resize (t : Terminal) (_width _height : Nat) : Terminal × List (Nat × Nat) :=
  (t, [])

end Terminal

/-! ## Renderer cell cache (from `src/renderer/cache.rs`)

Only the per-cell snapshot grid is embedded; the glyph LRU (`compute`) wraps
the external shaping backend and is out of scope for the claims handled
here. A live cell is viewed through `cell::Position`, here a plain `Cell`
plus its coordinates. -/

namespace Renderer

/-- One snapshot entry: style, value (`none` for an empty cell), validity. -/
structure CCell where
  style : Style
  value : Option (List Nat)
  valid : Bool
deriving DecidableEq, Repr

/-- `Cell::empty`. -/
def CCell.emptyCell (style : Style) : CCell := ⟨style, none, true⟩

structure Cache where
  width : Nat
  height : Nat
  inner : List CCell
deriving DecidableEq, Repr

/-- `Cache::new`. -/
def Cache.new (width height : Nat) : Cache :=
  ⟨width, height, List.replicate (width * height) (CCell.emptyCell Style.default)⟩

/-- View of a live cell: `cell::Position` accessors. `is_reference`,
`is_empty`, `is_occupied` test the variant; `value()` is only called on
occupied cells (a panic in Rust otherwise, a dummy here). -/
def cellIsReference : Cell → Bool
  | .reference _ => true
  | _ => false

def cellIsEmpty : Cell → Bool
  | .empty _ => true
  | _ => false

def cellIsOccupied : Cell → Bool
  | .occupied _ _ => true
  | _ => false

def cellStyle : Cell → Style
  | .empty s => s
  | .occupied _ s => s
  | .reference _ => Style.default

def cellValue : Cell → List Nat
  | .occupied v _ => v
  | _ => []

/-- `Cache::invalidate`. -/
def Cache.invalidate (c : Cache) (x y : Nat) : Cache :=
  let i := y * c.width + x
  { c with inner := c.inner.set i { (c.inner.getD i (CCell.emptyCell Style.default)) with valid := false } }

/-- `Cache::update`: `false` when the valid snapshot matches the live cell
on style, emptiness and (for occupied cells) value; otherwise replace the
snapshot and report `true`. -/
def Cache.update (c : Cache) (x y : Nat) (cell : Cell) : Cache × Bool :=
  let i := y * c.width + x
  let snap := c.inner.getD i (CCell.emptyCell Style.default)
  if snap.valid ∧ cellStyle cell = snap.style ∧
     ((cellIsEmpty cell = true ∧ snap.value = none) ∨
      (cellIsOccupied cell = true ∧ snap.value = some (cellValue cell))) then
    (c, false)
  else
    let snap2 : CCell :=
      ⟨cellStyle cell, if cellIsEmpty cell then none else some (cellValue cell), true⟩
    ({ c with inner := c.inner.set i snap2 }, true)

end Renderer

/-! ## SIXEL accumulator (from `src/terminal/sixel.rs`)

`cairo::Image` is external; it is modelled as a write log: `set` prepends,
`get` returns the latest write for a coordinate.  The HSL variant of
`SIXEL::Color` (a floating-point conversion through the palette crate) is
not modelled; colors arrive as RGB/RGBA tuples. -/

namespace SIXEL

/-- Modelled from the spec (§4.5): a fixed-size pixel image (standing for
`cairo::Image`). -/
structure Image where
  width : Nat
  height : Nat
  pixels : List ((Nat × Nat) × Rgba)
deriving DecidableEq, Repr

def Image.new (width height : Nat) : Image := ⟨width, height, []⟩

def Image.set (img : Image) (x y : Nat) (c : Rgba) : Image :=
  { img with pixels := ((x, y), c) :: img.pixels }

def Image.get (img : Image) (x y : Nat) : Option Rgba :=
  (img.pixels.lookup (x, y))

/-- SIXEL raster header: aspect ratio and the background-pad flag. -/
structure Header where
  aspect : Nat × Nat
  background : Bool
deriving DecidableEq, Repr

end SIXEL

structure Sixel where
  raster : SIXEL.Header
  grid : List (List SIXEL.Image)
  width : Nat
  height : Nat
  x : Nat
  y : Nat
  colors : List (Nat × Rgba)
  color : Nat
  background : Rgba
deriving DecidableEq, Repr

namespace Sixel

/-- `Sixel::new`. -/
def new (header : SIXEL.Header) (background : Rgba) (width height : Nat) : Sixel :=
  ⟨header, [], width, height, 0, 0, [], 0, background⟩

def aspect (s : Sixel) (a : Nat × Nat) : Sixel := { s with raster := { s.raster with aspect := a } }

def enable (s : Sixel) (id : Nat) : Sixel := { s with color := id }

/-- `Sixel::define` for the RGB/RGBA variants. -/
def define (s : Sixel) (id : Nat) (c : Rgba) : Sixel := { s with colors := (id, c) :: s.colors }

def start (s : Sixel) : Sixel := { s with x := 0 }

def next (s : Sixel) : Sixel := { s with x := 0, y := s.y + 6 * s.raster.aspect.1 }

/-- One loop iteration of `draw` at absolute pixel row `yy`, bit index `i`
(out-of-range tile indices panic in Rust; here the grow-by-one pushes are
embedded and other out-of-range writes are no-ops). -/
def drawAt (s : Sixel) (value : Nat) (color : Rgba) (xt xo : Nat)
    (grid : List (List SIXEL.Image)) (i yy : Nat) : List (List SIXEL.Image) :=
  let bit := i / s.raster.aspect.1
  let yo := yy % s.height
  let yt := yy / s.height
  let grid := if grid.length ≤ yt then grid ++ [[]] else grid
  let grid :=
    if (grid.getD yt []).length ≤ xt then
      grid.set yt ((grid.getD yt []) ++ [SIXEL.Image.new s.width s.height])
    else grid
  if value.testBit bit then
    grid.set yt ((grid.getD yt []).set xt
      (((grid.getD yt []).getD xt (SIXEL.Image.new s.width s.height)).set xo yo color))
  else if s.raster.background then
    grid.set yt ((grid.getD yt []).set xt
      (((grid.getD yt []).getD xt (SIXEL.Image.new s.width s.height)).set xo yo s.background))
  else grid

/-- `Sixel::draw`: paint the six (aspect-scaled) vertical pixels of the
current column and advance the pen. -/
def draw (s : Sixel) (value : Nat) : Sixel :=
  let color := (s.colors.lookup s.color).getD s.background
  let xt := s.x / s.width
  let xo := s.x % s.width
  let grid :=
    (List.range (6 * s.raster.aspect.1)).foldl
      (fun g i => drawAt s value color xt xo g i (s.y + i)) s.grid
  { s with grid := grid, x := s.x + 1 }

end Sixel

/-! ## Auxiliary predicates and sample data for the verification -/

/-- A sample configuration (white on black, palette entry 1 red). -/
def cfg0 : Config :=
  ⟨⟨255, 255, 255, 255⟩, ⟨0, 0, 0, 255⟩, ⟨128, 128, 128, 255⟩,
   [⟨0, 0, 0, 255⟩, ⟨205, 0, 0, 255⟩]⟩

/-- The wide-glyph invariant at one column: a `Reference{k}` cell must have,
k columns to its left, an `Occupied` base of display width at least k+1. -/
def cellRefOk (row : List Cell) (x : Nat) : Bool :=
  match row.getD x (Cell.empty Style.default) with
  | .reference k =>
    match row.getD (x - k) (Cell.empty Style.default) with
    | .occupied v _ => decide (k + 1 ≤ clusterWidth v)
    | _ => false
  | _ => true

/-- The wide-glyph invariant over every row of the grid. -/
def refInvariantB (t : Terminal) : Bool :=
  t.rows.all (fun row => (List.range row.length).all (fun x => cellRefOk row x))

/-- A 3x2 terminal with the cursor moved to the last column (CUP 1;3),
used to witness the amended claim C2. -/
def c2t : Terminal :=
  Terminal.handle (Terminal.opened cfg0 3 2) [0x1B, 0x5B, 0x31, 0x3B, 0x33, 0x48]

/-- A concrete sixel accumulator (2x6 tiles, aspect 1:1, no background
pad, palette entry 0 red) used to witness claim C8. -/
def c8s : Sixel :=
  ⟨⟨(1, 1), false⟩, [[SIXEL.Image.new 2 6]], 2, 6, 0, 0, [(0, ⟨205, 0, 0, 255⟩)], 0,
    ⟨0, 0, 0, 255⟩⟩

/-- The cursor-movement controls of claim C5: CR, LF, BS, CursorUp, Down,
Back, Forward, CursorPosition and LinePosition. -/
def isMove : Item → Bool
  | .c0 0x0D => true
  | .c0 0x0A => true
  | .c0 0x08 => true
  | .csi (.cursorPosition _ _) => true
  | .csi (.cursorUp _) => true
  | .csi (.cursorDown _) => true
  | .csi (.cursorBack _) => true
  | .csi (.cursorForward _) => true
  | .csi (.linePosition _) => true
  | _ => false

/-! # Theorems -/

/-! ## List helpers -/

theorem getD_set_self {α : Type} (l : List α) (i : Nat) (a d : α) (h : i < l.length) :
    (l.set i a).getD i d = a := by
  induction l generalizing i with
  | nil => simp at h
  | cons x xs ih =>
    cases i with
    | zero => rfl
    | succ i => simpa using ih i (by simpa using h)

theorem getD_set_ne {α : Type} (l : List α) {i j : Nat} (a : α) (d : α) (h : i ≠ j) :
    (l.set i a).getD j d = l.getD j d := by
  induction l generalizing i j with
  | nil => simp [List.set]
  | cons x xs ih =>
    cases i with
    | zero => cases j with
      | zero => exact absurd rfl h
      | succ j => rfl
    | succ i =>
      cases j with
      | zero => rfl
      | succ j => simpa using ih (fun hij => h (by omega))

theorem set_getD_self {α : Type} (l : List α) (i : Nat) (d : α) (h : i < l.length) :
    l.set i (l.getD i d) = l := by
  induction l generalizing i with
  | nil => rfl
  | cons x xs ih =>
    cases i with
    | zero => rfl
    | succ i => simpa using ih i (by simpa using h)

theorem dropWhile_append_of_ne_nil {α : Type} {p : α → Bool} {l : List α} (v : List α)
    (h : l.dropWhile p ≠ []) : (l ++ v).dropWhile p = l.dropWhile p ++ v := by
  induction l with
  | nil => simp [List.dropWhile] at h
  | cons x xs ih =>
    by_cases hx : p x
    · have h' : xs.dropWhile p ≠ [] := by simpa [List.dropWhile_cons, hx] using h
      simp [List.dropWhile_cons, hx, ih h']
    · simp [List.dropWhile_cons, hx]

theorem takeWhile_append_of_ne_nil {α : Type} {p : α → Bool} {l : List α} (v : List α)
    (h : l.dropWhile p ≠ []) : (l ++ v).takeWhile p = l.takeWhile p := by
  induction l with
  | nil => simp [List.dropWhile] at h
  | cons x xs ih =>
    by_cases hx : p x
    · have h' : xs.dropWhile p ≠ [] := by simpa [List.dropWhile_cons, hx] using h
      simp [List.takeWhile_cons, hx, ih h']
    · simp [List.takeWhile_cons, hx]

theorem takeWhile_append_all {α : Type} {p : α → Bool} {l : List α} {b : α} (v : List α)
    (hl : ∀ x ∈ l, p x = true) (hb : p b = false) :
    (l ++ b :: v).takeWhile p = l := by
  induction l with
  | nil => simp [List.takeWhile_cons, hb]
  | cons x xs ih =>
    have hx := hl x (List.mem_cons_self x xs)
    simp only [List.cons_append, List.takeWhile_cons, hx, if_true]
    rw [ih (fun y hy => hl y (List.mem_cons_of_mem x hy))]

theorem dropWhile_append_all {α : Type} {p : α → Bool} {l : List α} {b : α} (v : List α)
    (hl : ∀ x ∈ l, p x = true) (hb : p b = false) :
    (l ++ b :: v).dropWhile p = b :: v := by
  induction l with
  | nil => simp [List.dropWhile_cons, hb]
  | cons x xs ih =>
    have hx := hl x (List.mem_cons_self x xs)
    simp only [List.cons_append, List.dropWhile_cons, hx, if_true]
    exact ih (fun y hy => hl y (List.mem_cons_of_mem x hy))

theorem getD_mem {α : Type} (l : List α) (i : Nat) (d : α) (h : i < l.length) :
    l.getD i d ∈ l := by
  rw [List.getD_eq_getElem l d h]
  exact List.getElem_mem h

theorem getD_map {α β : Type} (f : α → β) (l : List α) (i : Nat) (d : β) (d0 : α)
    (h : i < l.length) : (l.map f).getD i d = f (l.getD i d0) := by
  rw [List.getD_eq_getElem l d0 h, List.getD_eq_getElem _ d (by simpa using h)]
  simp

/-! ## Projection invariance of the terminal operations -/

namespace Terminal

theorem eta_cache_none (t : Terminal) (h : t.cache = none) : { t with cache := none } = t := by
  cases t
  simp_all

/-- Folding a per-row rewrite over rows `off ..= off+n-1` preserves the
number of rows. -/
theorem fold_rows_length (F : List Cell → List Cell) (off n : Nat) (rs : List (List Cell)) :
    ((List.range n).foldl (fun a y => a.set (y + off) (F (a.getD (y + off) []))) rs).length
      = rs.length := by
  induction n with
  | zero => rfl
  | succ n ih =>
    rw [List.range_succ, List.foldl_append, List.foldl_cons, List.foldl_nil, List.length_set, ih]

/-- Rows at or above `off + n` are untouched by the fold. -/
theorem fold_rows_getD_ge (F : List Cell → List Cell) (off n : Nat) (rs : List (List Cell))
    (j : Nat) (hj : off + n ≤ j) :
    ((List.range n).foldl (fun a y => a.set (y + off) (F (a.getD (y + off) []))) rs).getD j []
      = rs.getD j [] := by
  induction n with
  | zero => rfl
  | succ n ih =>
    rw [List.range_succ, List.foldl_append, List.foldl_cons, List.foldl_nil,
      getD_set_ne _ _ _ (by omega), ih (by omega)]

/-- Row `off + i` with `i < n` is rewritten by `F` exactly once. -/
theorem fold_rows_getD_lt (F : List Cell → List Cell) (off n : Nat) (rs : List (List Cell))
    (i : Nat) (hi : i < n) (hlen : i + off < rs.length) :
    ((List.range n).foldl (fun a y => a.set (y + off) (F (a.getD (y + off) []))) rs).getD
        (i + off) []
      = F (rs.getD (i + off) []) := by
  induction n with
  | zero => omega
  | succ n ih =>
    rw [List.range_succ, List.foldl_append, List.foldl_cons, List.foldl_nil]
    by_cases hin : i = n
    · subst hin
      rw [getD_set_self _ _ _ _ (by rw [fold_rows_length]; omega),
        fold_rows_getD_ge F off i rs (i + off) (by omega)]
    · rw [getD_set_ne _ _ _ (by omega), ih (by omega)]

theorem fold_rows_map_length (f : Cell → Cell) (off n : Nat) (rs : List (List Cell)) :
    ((List.range n).foldl (fun a y => a.set (y + off) ((a.getD (y + off) []).map f)) rs).length
      = rs.length :=
  fold_rows_length (fun l => l.map f) off n rs

theorem fold_rows_map_getD_ge (f : Cell → Cell) (off n : Nat) (rs : List (List Cell))
    (j : Nat) (hj : off + n ≤ j) :
    ((List.range n).foldl (fun a y => a.set (y + off) ((a.getD (y + off) []).map f)) rs).getD j []
      = rs.getD j [] :=
  fold_rows_getD_ge (fun l => l.map f) off n rs j hj

theorem fold_rows_map_getD_lt (f : Cell → Cell) (off n : Nat) (rs : List (List Cell))
    (i : Nat) (hi : i < n) (hlen : i + off < rs.length) :
    ((List.range n).foldl (fun a y => a.set (y + off) ((a.getD (y + off) []).map f)) rs).getD
        (i + off) []
      = (rs.getD (i + off) []).map f :=
  fold_rows_getD_lt (fun l => l.map f) off n rs i hi hlen

theorem foldl_cache {β : Type} {f : Terminal → β → Terminal}
    (h : ∀ a b, (f a b).cache = a.cache) (t : Terminal) (l : List β) :
    (l.foldl f t).cache = t.cache := by
  induction l generalizing t with
  | nil => rfl
  | cons b l ih => rw [List.foldl_cons, ih, h]

theorem foldl_saved {β : Type} {f : Terminal → β → Terminal}
    (h : ∀ a b, (f a b).saved = a.saved) (t : Terminal) (l : List β) :
    (l.foldl f t).saved = t.saved := by
  induction l generalizing t with
  | nil => rfl
  | cons b l ih => rw [List.foldl_cons, ih, h]

theorem extendN_cache (t : Terminal) (n : Nat) : (extendN t n).cache = t.cache := by
  induction n generalizing t with
  | zero => rfl
  | succ n ih => rw [extendN, ih]; rfl

theorem extendN_saved (t : Terminal) (n : Nat) : (extendN t n).saved = t.saved := by
  induction n generalizing t with
  | zero => rfl
  | succ n ih => rw [extendN, ih]; rfl

theorem move_cache (t : Terminal) (tr : Travel) : (t.move tr).cache = t.cache := by
  rcases h : Cursor.travel t.width t.height t.cursor tr with ⟨c, _ | n⟩ <;>
    simp [move, h, extendN_cache]

theorem move_saved (t : Terminal) (tr : Travel) : (t.move tr).saved = t.saved := by
  rcases h : Cursor.travel t.width t.height t.cursor tr with ⟨c, _ | n⟩ <;>
    simp [move, h, extendN_saved]

theorem eraseCell_cache (t : Terminal) (x y : Nat) : (t.eraseCell x y).cache = t.cache := rfl

theorem eraseDisplayToEnd_cache (t : Terminal) : t.eraseDisplayToEnd.cache = t.cache := by
  unfold eraseDisplayToEnd
  refine (foldl_cache ?_ _ _).trans ((foldl_cache ?_ _ _).trans rfl)
  · intro a y
    refine (foldl_cache ?_ _ _).trans rfl
    intro b x
    rfl
  · intro a x
    rfl

theorem eraseDisplayToStart_cache (t : Terminal) : t.eraseDisplayToStart.cache = t.cache := by
  unfold eraseDisplayToStart
  refine (foldl_cache ?_ _ _).trans ((foldl_cache ?_ _ _).trans rfl)
  · intro a y
    refine (foldl_cache ?_ _ _).trans rfl
    intro b x
    rfl
  · intro a x
    rfl

theorem eraseDisplayAll_cache (t : Terminal) : t.eraseDisplayAll.cache = t.cache := by
  unfold eraseDisplayAll
  refine (foldl_cache ?_ _ _).trans rfl
  intro a y
  refine (foldl_cache ?_ _ _).trans rfl
  intro b x
  rfl

theorem eraseLineToEnd_cache (t : Terminal) : t.eraseLineToEnd.cache = t.cache := by
  unfold eraseLineToEnd
  refine foldl_cache ?_ _ _
  intro a x
  rfl

theorem eraseLineToStart_cache (t : Terminal) : t.eraseLineToStart.cache = t.cache := by
  unfold eraseLineToStart
  refine foldl_cache ?_ _ _
  intro a x
  rfl

theorem eraseLineAll_cache (t : Terminal) : t.eraseLineAll.cache = t.cache := by
  unfold eraseLineAll
  refine (foldl_cache ?_ _ _).trans rfl
  intro a x
  rfl

theorem deleteLine_cache (t : Terminal) (n : Nat) : (t.deleteLine n).cache = t.cache := by
  unfold deleteLine
  refine (foldl_cache ?_ _ _).trans ((extendN_cache _ n).trans rfl)
  intro a yy
  rfl

theorem insertLine_cache (t : Terminal) (n : Nat) : (t.insertLine n).cache = t.cache := by
  unfold insertLine
  refine (foldl_cache ?_ _ _).trans ?_
  · intro a yy
    rfl
  · exact (extendN_cache _ n).trans rfl

theorem decaln_cache (t : Terminal) : t.decaln.cache = t.cache := rfl

theorem decbi_cache (t : Terminal) : t.decbi.cache = t.cache := by
  unfold decbi
  split
  · rfl
  · exact move_cache t _

theorem decfi_cache (t : Terminal) : t.decfi.cache = t.cache := by
  unfold decfi
  split
  · rfl
  · exact move_cache t _

theorem writeGrapheme_cache (t : Terminal) (g : List Nat) :
    (t.writeGrapheme g).cache = t.cache := by
  simp only [writeGrapheme]
  rw [move_cache]
  split
  · split
    · refine (foldl_cache ?_ _ _).trans ?_
      · intro a i
        rfl
      · exact (move_cache _ _).trans (move_cache _ _)
    · exact (move_cache _ _).trans (move_cache _ _)
  · split
    · refine (foldl_cache ?_ _ _).trans ?_
      · intro a i
        rfl
      · rfl
    · rfl

theorem applyItem_saved_of_isMove (t : Terminal) (m : Item) (h : isMove m = true) :
    (t.applyItem m).saved = t.saved := by
  cases m with
  | escape => rfl
  | nextLine => simp only [applyItem]; rw [move_saved, move_saved]
  | c0 b =>
    simp only [applyItem]
    split_ifs <;> first | rw [move_saved] | rfl
  | raw cps => simp [isMove] at h
  | osc cmd => simp [isMove] at h
  | csi c =>
    cases c <;> first
      | exact move_saved t _
      | simp [isMove] at h

theorem applyItem_cache (t : Terminal) (it : Item) : (t.applyItem it).cache = t.cache := by
  cases it with
  | escape => rfl
  | c0 b => simp only [applyItem]; split_ifs <;> first | rw [move_cache] | rfl
  | nextLine => simp only [applyItem]; rw [move_cache, move_cache]
  | raw cps => exact foldl_cache writeGrapheme_cache t (clusters cps)
  | osc cmd =>
    simp only [applyItem, oscCursor]
    split_ifs <;> rfl
  | csi c =>
    cases c with
    | cursorPosition x y => exact move_cache t _
    | cursorUp n => exact move_cache t _
    | cursorDown n => exact move_cache t _
    | cursorBack n => exact move_cache t _
    | cursorForward n => exact move_cache t _
    | linePosition n => exact move_cache t _
    | deviceAttributes n => rfl
    | setMode ms =>
      exact foldl_cache (fun a m => by cases m <;> rfl) t ms
    | resetMode ms =>
      exact foldl_cache (fun a m => by cases m <;> rfl) t ms
    | priv f inter args =>
      simp only [applyItem]
      split_ifs
      · refine foldl_cache ?_ _ _
        intro a b
        unfold privSet
        split_ifs <;> rfl
      · refine foldl_cache ?_ _ _
        intro a b
        unfold privReset
        split_ifs <;> rfl
      · rfl
    | saveCursor => rfl
    | restoreCursor =>
      simp only [applyItem]
      cases t.saved <;> rfl
    | eraseDisplay e =>
      cases e <;> simp only [applyItem] <;>
        [exact eraseDisplayToEnd_cache t; exact eraseDisplayToStart_cache t;
          exact eraseDisplayAll_cache t]
    | eraseLine e =>
      cases e <;> simp only [applyItem] <;>
        [exact eraseLineToEnd_cache t; exact eraseLineToStart_cache t; exact eraseLineAll_cache t]
    | deleteLine n => exact deleteLine_cache t n
    | insertLine n => exact insertLine_cache t n
    | sgr attrs => rfl
    | unknown f inter args =>
      simp only [applyItem]
      split_ifs
      · simp only [decscusr]
        split_ifs <;> rfl
      · rfl

end Terminal

/-- C1. The code has the DECTCEM orientation inverted: handling
`ESC [ ? 25 l` leaves the cursor visible (`visible = true`), and a
following `ESC [ ? 25 h` hides it, the exact opposite of the claimed (and
standard, and OSC `cursor:show`/`cursor:hide`-consistent) behavior, because
the `Private(b'h')` arm assigns `visible = false` and the `Private(b'l')`
arm assigns `visible = true`. -/
theorem c1_visibility_inverted :
    ((Terminal.opened cfg0 4 3).handle [0x1B, 0x5B, 0x3F, 0x32, 0x35, 0x6C]).cursor.visible
        = true ∧
      (((Terminal.opened cfg0 4 3).handle [0x1B, 0x5B, 0x3F, 0x32, 0x35, 0x6C]).handle
          [0x1B, 0x5B, 0x3F, 0x32, 0x35, 0x68]).cursor.visible = false := by
  decide

/-- C9. `Terminal::resize` ignores its arguments: the state is returned
unchanged together with an empty list of dirty coordinates. -/
theorem resize_is_noop (t : Terminal) (width height : Nat) :
    Terminal.resize t width height = (t, []) :=
  rfl

/-- C6. The invariant fails on the code: writing a narrow glyph over the
base column of a wide glyph does not reset the wide glyph's continuation
columns.  After `你` (width 2), CR, `A` from `open`, column 1 of row 0 is
still `Reference{1}` while its base at column 0 is the width-1 `A`. -/
theorem c6_stale_reference :
    (Terminal.handle (Terminal.opened cfg0 4 2) [0xE4, 0xBD, 0xA0, 0x0D, 0x41]).getCell 1 0
        = Cell.reference 1 ∧
      (Terminal.handle (Terminal.opened cfg0 4 2) [0xE4, 0xBD, 0xA0, 0x0D, 0x41]).getCell 0 0
        = Cell.occupied [0x41] Style.default ∧
      clusterWidth [0x41] = 1 ∧
      refInvariantB (Terminal.handle (Terminal.opened cfg0 4 2) [0xE4, 0xBD, 0xA0, 0x0D, 0x41])
        = false := by
  decide

/-- C2, counterexample. The claimed conjunct "no wrap occurs when WRAP is
not set" is false: the wrap test in the raw-text arm never consults the
mode.  With WRAP reset (`ESC [ ? 7 l`), a full-width `你` entered at column
cols-1 of a 3x2 screen still wraps to (0, 1). -/
theorem c2_counterexample :
    (Terminal.handle (Terminal.opened cfg0 3 2)
        ([0x1B, 0x5B, 0x3F, 0x37, 0x6C] ++ [0x1B, 0x5B, 0x31, 0x3B, 0x33, 0x48] ++
          [0xE4, 0xBD, 0xA0])).mode.wrap = false ∧
      (Terminal.handle (Terminal.opened cfg0 3 2)
        ([0x1B, 0x5B, 0x3F, 0x37, 0x6C] ++ [0x1B, 0x5B, 0x31, 0x3B, 0x33, 0x48] ++
          [0xE4, 0xBD, 0xA0])).getCell 0 1 = Cell.occupied [0x4F60] Style.default ∧
      (Terminal.handle (Terminal.opened cfg0 3 2)
        ([0x1B, 0x5B, 0x3F, 0x37, 0x6C] ++ [0x1B, 0x5B, 0x31, 0x3B, 0x33, 0x48] ++
          [0xE4, 0xBD, 0xA0])).getCell 1 1 = Cell.reference 1 := by
  decide

/-- C3, counterexample. The split-equivalence fails when the split lands
inside a raw-text run: `"e"` followed by a combining acute (U+0301, bytes
CC 81) forms one grapheme cluster when handled in a single call, but two
clusters when split after the first byte, so the final grids differ. -/
theorem c3_counterexample :
    (Terminal.handle (Terminal.handle (Terminal.opened cfg0 4 2) [0x65]) [0xCC, 0x81]).rows ≠
      (Terminal.handle (Terminal.opened cfg0 4 2) [0x65, 0xCC, 0x81]).rows := by
  decide

/-- C7, counterexample. DECALN only fills the visible window, not the
scrollback: after `A`, two line feeds (which push one row into scrollback)
and `ESC # 8` on a 2x2 screen, the scrollback row still holds the `A`. -/
theorem c7_counterexample :
    ((Terminal.handle (Terminal.opened cfg0 2 2) [0x41, 0x0A, 0x0A, 0x1B, 0x23, 0x38]).rows.getD 0
        []).getD 0 (Cell.empty Style.default) = Cell.occupied [0x41] Style.default ∧
      (Terminal.handle (Terminal.opened cfg0 2 2)
        [0x41, 0x0A, 0x0A, 0x1B, 0x23, 0x38]).rows.length = 3 := by
  decide

/-- C4. `Cache::update` returns false exactly when the stored snapshot at
(x, y) is valid and agrees with the live cell on style, on emptiness, and
(when occupied) on the grapheme value; in every other case it overwrites
the snapshot with the live cell's style and value, marks it valid, and
returns true.  (Reference cells are excluded by the function's
`debug_assert!`.) -/
theorem c4_cache_update (c : Renderer.Cache) (x y : Nat) (cell : Cell)
    (href : Renderer.cellIsReference cell = false) :
    ((c.update x y cell).2 = false ↔
      ((c.inner.getD (y * c.width + x) (Renderer.CCell.emptyCell Style.default)).valid = true ∧
        Renderer.cellStyle cell
          = (c.inner.getD (y * c.width + x) (Renderer.CCell.emptyCell Style.default)).style ∧
        (Renderer.cellIsEmpty cell = true ↔
          (c.inner.getD (y * c.width + x) (Renderer.CCell.emptyCell Style.default)).value
            = none) ∧
        (Renderer.cellIsOccupied cell = true →
          (c.inner.getD (y * c.width + x) (Renderer.CCell.emptyCell Style.default)).value
            = some (Renderer.cellValue cell)))) ∧
    ((c.update x y cell).2 = true →
      (c.update x y cell).1.inner = c.inner.set (y * c.width + x)
        ⟨Renderer.cellStyle cell,
          if Renderer.cellIsEmpty cell = true then none else some (Renderer.cellValue cell),
          true⟩) := by
  cases cell with
  | reference k => simp [Renderer.cellIsReference] at href
  | empty s =>
    simp only [Renderer.Cache.update, Renderer.cellIsEmpty, Renderer.cellIsOccupied,
      Renderer.cellStyle, Renderer.cellValue]
    split_ifs with h <;> simp_all
  | occupied v s =>
    simp only [Renderer.Cache.update, Renderer.cellIsEmpty, Renderer.cellIsOccupied,
      Renderer.cellStyle, Renderer.cellValue]
    split_ifs with h <;> simp_all

/-- Witness for C4: a fresh 2x2 cache updated with an occupied cell at
(0, 0); the snapshot disagrees (it is empty), so update returns true and
overwrites. -/
theorem c4_witness :
    (Renderer.cellIsReference (Cell.occupied [0x41] Style.default) = false) ∧
    (((Renderer.Cache.new 2 2).update 0 0 (Cell.occupied [0x41] Style.default)).2 = false ↔
      ((((Renderer.Cache.new 2 2).inner.getD 0 (Renderer.CCell.emptyCell Style.default)).valid
            = true ∧
        Renderer.cellStyle (Cell.occupied [0x41] Style.default)
          = (((Renderer.Cache.new 2 2).inner.getD 0
              (Renderer.CCell.emptyCell Style.default))).style ∧
        (Renderer.cellIsEmpty (Cell.occupied [0x41] Style.default) = true ↔
          (((Renderer.Cache.new 2 2).inner.getD 0
              (Renderer.CCell.emptyCell Style.default))).value = none) ∧
        (Renderer.cellIsOccupied (Cell.occupied [0x41] Style.default) = true →
          (((Renderer.Cache.new 2 2).inner.getD 0
              (Renderer.CCell.emptyCell Style.default))).value
            = some (Renderer.cellValue (Cell.occupied [0x41] Style.default)))))) ∧
    (((Renderer.Cache.new 2 2).update 0 0 (Cell.occupied [0x41] Style.default)).2 = true →
      ((Renderer.Cache.new 2 2).update 0 0 (Cell.occupied [0x41] Style.default)).1.inner
        = (Renderer.Cache.new 2 2).inner.set 0
          ⟨Renderer.cellStyle (Cell.occupied [0x41] Style.default),
            if Renderer.cellIsEmpty (Cell.occupied [0x41] Style.default) = true then none
            else some (Renderer.cellValue (Cell.occupied [0x41] Style.default)),
            true⟩) := by
  refine ⟨by decide, ?_⟩
  have h := c4_cache_update (Renderer.Cache.new 2 2) 0 0 (Cell.occupied [0x41] Style.default)
    (by decide)
  simpa using h

theorem image_get_set_self (img : SIXEL.Image) (x y : Nat) (c : Rgba) :
    (img.set x y c).get x y = some c := by
  simp [SIXEL.Image.get, SIXEL.Image.set, List.lookup]

theorem image_get_set_ne (img : SIXEL.Image) (x y x' y' : Nat) (c : Rgba)
    (h : (x', y') ≠ (x, y)) : (img.set x y c).get x' y' = img.get x' y' := by
  have hb : (((x', y') : Nat × Nat) == (x, y)) = false := beq_eq_false_iff_ne.mpr h
  simp [SIXEL.Image.get, SIXEL.Image.set, List.lookup, hb]

/-- C8. `Sixel::draw`: provided the six aspect-scaled rows of the current
column lie inside one existing tile (no panic and no tile growth), each of
the rows y .. y+6*aspect whose sixel bit is set is painted in the currently
selected palette color at the pen column; when the raster header's
background flag is set, zero bits are painted with the background color,
and when it is clear, zero bits leave the pixel untouched; the pen then
advances by one column. -/
theorem c8_sixel_draw (s : Sixel) (v : Nat) (col : Rgba)
    (hh : 0 < s.height)
    (hfit : s.y % s.height + 6 * s.raster.aspect.1 ≤ s.height)
    (hyt : s.y / s.height < s.grid.length)
    (hxt : s.x / s.width < (s.grid.getD (s.y / s.height) []).length)
    (hcol : s.colors.lookup s.color = some col) :
    (s.draw v).x = s.x + 1 ∧
      ∀ i, i < 6 * s.raster.aspect.1 →
        SIXEL.Image.get
            (((s.draw v).grid.getD (s.y / s.height) []).getD (s.x / s.width)
              (SIXEL.Image.new s.width s.height))
            (s.x % s.width) (s.y % s.height + i)
          = if v.testBit (i / s.raster.aspect.1) then some col
            else if s.raster.background then some s.background
            else
              SIXEL.Image.get
                ((s.grid.getD (s.y / s.height) []).getD (s.x / s.width)
                  (SIXEL.Image.new s.width s.height))
                (s.x % s.width) (s.y % s.height + i) := by
  have hsy : s.height * (s.y / s.height) + s.y % s.height = s.y := Nat.div_add_mod s.y s.height
  have hdivmod : ∀ n, s.y % s.height + n < s.height →
      (s.y + n) / s.height = s.y / s.height ∧ (s.y + n) % s.height = s.y % s.height + n := by
    intro n hn
    have h1 : s.y + n = s.height * (s.y / s.height) + (s.y % s.height + n) := by omega
    constructor
    · rw [h1, Nat.mul_add_div hh, Nat.div_eq_of_lt hn, Nat.add_zero]
    · rw [h1, Nat.mul_add_mod, Nat.mod_eq_of_lt hn]
  refine ⟨rfl, ?_⟩
  have key : ∀ n, n ≤ 6 * s.raster.aspect.1 →
      (((List.range n).foldl
          (fun g i => Sixel.drawAt s v col (s.x / s.width) (s.x % s.width) g i (s.y + i))
          s.grid).length = s.grid.length) ∧
      ((((List.range n).foldl
          (fun g i => Sixel.drawAt s v col (s.x / s.width) (s.x % s.width) g i (s.y + i))
          s.grid).getD (s.y / s.height) []).length
        = (s.grid.getD (s.y / s.height) []).length) ∧
      (∀ j, j < 6 * s.raster.aspect.1 →
        (n ≤ j →
          SIXEL.Image.get
              ((((List.range n).foldl
                  (fun g i => Sixel.drawAt s v col (s.x / s.width) (s.x % s.width) g i (s.y + i))
                  s.grid).getD (s.y / s.height) []).getD (s.x / s.width)
                (SIXEL.Image.new s.width s.height))
              (s.x % s.width) (s.y % s.height + j)
            = SIXEL.Image.get
                ((s.grid.getD (s.y / s.height) []).getD (s.x / s.width)
                  (SIXEL.Image.new s.width s.height))
                (s.x % s.width) (s.y % s.height + j)) ∧
        (j < n →
          SIXEL.Image.get
              ((((List.range n).foldl
                  (fun g i => Sixel.drawAt s v col (s.x / s.width) (s.x % s.width) g i (s.y + i))
                  s.grid).getD (s.y / s.height) []).getD (s.x / s.width)
                (SIXEL.Image.new s.width s.height))
              (s.x % s.width) (s.y % s.height + j)
            = if v.testBit (j / s.raster.aspect.1) then some col
              else if s.raster.background then some s.background
              else
                SIXEL.Image.get
                  ((s.grid.getD (s.y / s.height) []).getD (s.x / s.width)
                    (SIXEL.Image.new s.width s.height))
                  (s.x % s.width) (s.y % s.height + j))) := by
    intro n
    induction n with
    | zero => exact fun _ => ⟨rfl, rfl, fun j _ => ⟨fun _ => rfl, fun hj => absurd hj (by omega)⟩⟩
    | succ n ih =>
      intro hn
      obtain ⟨hgl, hrl, hget⟩ := ih (by omega)
      rw [List.range_succ, List.foldl_append, List.foldl_cons, List.foldl_nil]
      set gn := (List.range n).foldl
        (fun g i => Sixel.drawAt s v col (s.x / s.width) (s.x % s.width) g i (s.y + i)) s.grid
        with hgn
      have hdm := hdivmod n (by omega)
      have hstep :
          Sixel.drawAt s v col (s.x / s.width) (s.x % s.width) gn n (s.y + n)
            = gn.set (s.y / s.height)
                ((gn.getD (s.y / s.height) []).set (s.x / s.width)
                  (if v.testBit (n / s.raster.aspect.1) then
                    ((gn.getD (s.y / s.height) []).getD (s.x / s.width)
                      (SIXEL.Image.new s.width s.height)).set (s.x % s.width)
                      (s.y % s.height + n) col
                   else if s.raster.background then
                    ((gn.getD (s.y / s.height) []).getD (s.x / s.width)
                      (SIXEL.Image.new s.width s.height)).set (s.x % s.width)
                      (s.y % s.height + n) s.background
                   else
                    (gn.getD (s.y / s.height) []).getD (s.x / s.width)
                      (SIXEL.Image.new s.width s.height))) := by
        simp only [Sixel.drawAt, hdm.1, hdm.2]
        split_ifs <;> first
          | rfl
          | omega
          | rw [set_getD_self _ _ _ (by omega), set_getD_self _ _ _ (by omega)]
      rw [hstep]
      refine ⟨by rw [List.length_set, hgl], ?_, ?_⟩
      · rw [getD_set_self _ _ _ _ (by omega), List.length_set]
        exact hrl
      · intro j hj
        rw [getD_set_self _ _ _ _ (by omega), getD_set_self _ _ _ _ (by omega)]
        constructor
        · intro hnj
          have hne : ((s.x % s.width, s.y % s.height + j) : Nat × Nat)
              ≠ (s.x % s.width, s.y % s.height + n) := by
            intro hcontra
            have := congrArg Prod.snd hcontra
            simp at this
            omega
          split_ifs with hb hbg
          · rw [image_get_set_ne _ _ _ _ _ _ hne]
            exact (hget j hj).1 (by omega)
          · rw [image_get_set_ne _ _ _ _ _ _ hne]
            exact (hget j hj).1 (by omega)
          · exact (hget j hj).1 (by omega)
        · intro hj1
          by_cases hjn : j = n
          · subst hjn
            split_ifs with hb hbg
            · rw [image_get_set_self]
            · rw [image_get_set_self]
            · exact (hget j hj).1 (le_refl j)
          · have hne : ((s.x % s.width, s.y % s.height + j) : Nat × Nat)
                ≠ (s.x % s.width, s.y % s.height + n) := by
              intro hcontra
              have := congrArg Prod.snd hcontra
              simp at this
              omega
            have hLHS :
                SIXEL.Image.get
                    (if v.testBit (n / s.raster.aspect.1) then
                      ((gn.getD (s.y / s.height) []).getD (s.x / s.width)
                        (SIXEL.Image.new s.width s.height)).set (s.x % s.width)
                        (s.y % s.height + n) col
                     else if s.raster.background then
                      ((gn.getD (s.y / s.height) []).getD (s.x / s.width)
                        (SIXEL.Image.new s.width s.height)).set (s.x % s.width)
                        (s.y % s.height + n) s.background
                     else
                      (gn.getD (s.y / s.height) []).getD (s.x / s.width)
                        (SIXEL.Image.new s.width s.height))
                    (s.x % s.width) (s.y % s.height + j)
                  = SIXEL.Image.get
                      ((gn.getD (s.y / s.height) []).getD (s.x / s.width)
                        (SIXEL.Image.new s.width s.height)) (s.x % s.width)
                      (s.y % s.height + j) := by
              split_ifs <;> first | rw [image_get_set_ne _ _ _ _ _ _ hne] | rfl
            rw [hLHS]
            exact (hget j hj).2 (by omega)
  intro i hi
  have hdraw : (s.draw v).grid = (List.range (6 * s.raster.aspect.1)).foldl
      (fun g i => Sixel.drawAt s v col (s.x / s.width) (s.x % s.width) g i (s.y + i)) s.grid := by
    simp only [Sixel.draw, hcol, Option.getD_some]
  rw [hdraw]
  exact ((key (6 * s.raster.aspect.1) (le_refl _)).2.2 i hi).2 hi

/-- Witness for C8: drawing the sixel byte 13 (bits 0, 2, 3) into `c8s`. -/
theorem c8_witness :
    ((0 : Nat) < c8s.height ∧ c8s.colors.lookup c8s.color = some ⟨205, 0, 0, 255⟩) ∧
    ((c8s.draw 13).x = c8s.x + 1 ∧
      ∀ i, i < 6 * c8s.raster.aspect.1 →
        SIXEL.Image.get
            (((c8s.draw 13).grid.getD (c8s.y / c8s.height) []).getD (c8s.x / c8s.width)
              (SIXEL.Image.new c8s.width c8s.height))
            (c8s.x % c8s.width) (c8s.y % c8s.height + i)
          = if (13 : Nat).testBit (i / c8s.raster.aspect.1) then some ⟨205, 0, 0, 255⟩
            else if c8s.raster.background then some c8s.background
            else
              SIXEL.Image.get
                ((c8s.grid.getD (c8s.y / c8s.height) []).getD (c8s.x / c8s.width)
                  (SIXEL.Image.new c8s.width c8s.height))
                (c8s.x % c8s.width) (c8s.y % c8s.height + i)) := by
  refine ⟨⟨by decide, by decide⟩, ?_⟩
  exact c8_sixel_draw c8s 13 ⟨205, 0, 0, 255⟩ (by decide) (by decide) (by decide) (by decide)
    (by decide)

/-- C5. DECSC followed by any sequence of cursor-movement controls (CR, LF,
BS, CursorUp/Down/Back/Forward, CursorPosition, LinePosition) followed by
DECRC restores the cursor to its value at the time of the save: none of the
movement arms touch `saved`, and the restore arm installs the saved cursor
wholesale.  With no saved cursor, RestoreCursor is a no-op. -/
theorem c5_decsc_decrc (t : Terminal) (ms : List Item) (hm : ∀ m ∈ ms, isMove m = true) :
    ((ms.foldl Terminal.applyItem (t.applyItem (.csi .saveCursor))).applyItem
        (.csi .restoreCursor)).cursor = t.cursor ∧
      (t.saved = none → t.applyItem (.csi .restoreCursor) = t) := by
  constructor
  · have hfold : ∀ (l : List Item) (u : Terminal), (∀ m ∈ l, isMove m = true) →
        (l.foldl Terminal.applyItem u).saved = u.saved := by
      intro l
      induction l with
      | nil => intro u _; rfl
      | cons m l ih =>
        intro u hl
        rw [List.foldl_cons, ih _ (fun x hx => hl x (List.mem_cons_of_mem m hx)),
          Terminal.applyItem_saved_of_isMove u m (hl m (List.mem_cons_self m l))]
    set u := ms.foldl Terminal.applyItem (t.applyItem (.csi .saveCursor)) with hu
    have hsaved : u.saved = some t.cursor := by
      rw [hu, hfold ms _ hm]
      rfl
    simp only [Terminal.applyItem]
    rw [hsaved]
  · intro hnone
    simp only [Terminal.applyItem]
    rw [hnone]

/-- Witness for C5: a concrete terminal, one line feed and one
cursor-forward between save and restore. -/
theorem c5_witness :
    (∀ m ∈ ([Item.c0 0x0A, Item.csi (.cursorForward 2)] : List Item), isMove m = true) ∧
      ((([Item.c0 0x0A, Item.csi (.cursorForward 2)] : List Item).foldl Terminal.applyItem
          ((Terminal.opened cfg0 4 3).applyItem (.csi .saveCursor))).applyItem
            (.csi .restoreCursor)).cursor = (Terminal.opened cfg0 4 3).cursor ∧
      ((Terminal.opened cfg0 4 3).saved = none →
        (Terminal.opened cfg0 4 3).applyItem (.csi .restoreCursor) = Terminal.opened cfg0 4 3) := by
  refine ⟨by decide, ?_⟩
  exact c5_decsc_decrc (Terminal.opened cfg0 4 3) [Item.c0 0x0A, Item.csi (.cursorForward 2)]
    (by decide)

/-- C7, amended. DECALN (`ESC # 8`) fills every cell of the visible window
(the area.height rows at the current window offset) with an Occupied "E"
in the current cursor style and performs touch-all; rows that have scrolled
into the scrollback are not rewritten. -/
theorem c7_decaln_visible (t : Terminal) (hc : t.cache = none) (hs : t.scroll = none)
    (hh : t.height ≤ t.rows.length) (hlen : ∀ r ∈ t.rows, r.length = t.width)
    (x y : Nat) (hx : x < t.width) (hy : y < t.height) :
    (t.handle [0x1B, 0x23, 0x38]).getCell x y = Cell.occupied [0x45] t.cursor.style ∧
      (t.handle [0x1B, 0x23, 0x38]).touched.all = true := by
  have h1 : t.handle [0x1B, 0x23, 0x38] = t.decaln := by
    simp only [Terminal.handle]
    rw [hc]
    simp only [Option.getD_none, List.nil_append]
    rw [Terminal.eta_cache_none t hc]
    rfl
  rw [h1]
  refine ⟨?_, rfl⟩
  simp only [Terminal.getCell, Terminal.decaln, Terminal.rowFor, hs, Option.getD_none]
  rw [Terminal.fold_rows_map_length]
  rw [Terminal.fold_rows_map_getD_lt _ _ _ _ y hy (by omega)]
  have hrowlen : (t.rows.getD (y + (t.rows.length - t.height)) []).length = t.width :=
    hlen _ (getD_mem _ _ _ (by omega))
  rw [getD_map _ _ _ _ (Cell.empty Style.default) (by omega)]

/-- Witness for C7: DECALN on a 2x2 terminal that has already pushed one
row into the scrollback. -/
theorem c7_witness :
    ((Terminal.handle (Terminal.opened cfg0 2 2) [0x41, 0x0A, 0x0A]).cache = none ∧
      (Terminal.handle (Terminal.opened cfg0 2 2) [0x41, 0x0A, 0x0A]).scroll = none ∧
      (Terminal.handle (Terminal.opened cfg0 2 2) [0x41, 0x0A, 0x0A]).height ≤
        (Terminal.handle (Terminal.opened cfg0 2 2) [0x41, 0x0A, 0x0A]).rows.length) ∧
    ((Terminal.handle (Terminal.opened cfg0 2 2) [0x41, 0x0A, 0x0A]).handle
        [0x1B, 0x23, 0x38]).getCell 1 1
      = Cell.occupied [0x45]
          (Terminal.handle (Terminal.opened cfg0 2 2) [0x41, 0x0A, 0x0A]).cursor.style ∧
    ((Terminal.handle (Terminal.opened cfg0 2 2) [0x41, 0x0A, 0x0A]).handle
        [0x1B, 0x23, 0x38]).touched.all = true := by
  refine ⟨⟨by decide, by decide, by decide⟩, ?_, ?_⟩
  · exact (c7_decaln_visible (Terminal.handle (Terminal.opened cfg0 2 2) [0x41, 0x0A, 0x0A])
      (by decide) (by decide) (by decide) (by decide) 1 1 (by decide) (by decide)).1
  · exact (c7_decaln_visible (Terminal.handle (Terminal.opened cfg0 2 2) [0x41, 0x0A, 0x0A])
      (by decide) (by decide) (by decide) (by decide) 1 1 (by decide) (by decide)).2

/-- C2, amended. When a full-width (w = 2) grapheme arrives at column
cols-1, the wrap fires regardless of the WRAP mode bit (the raw-text arm
never consults the mode): the cursor advances to the next line, column 0,
the glyph is placed as Occupied at (0, y+1) with (1, y+1) = Reference{1},
and (cols-1, y) remains Empty. -/
theorem c2_wide_wrap (t : Terminal) (s0 s1 : Style)
    (hc : t.cache = none) (hs : t.scroll = none)
    (hh : t.height ≤ t.rows.length) (hlen : ∀ r ∈ t.rows, r.length = t.width)
    (hw : 2 ≤ t.width)
    (hx : t.cursor.x = t.width - 1) (hy : t.cursor.y + 1 < t.height)
    (hc0 : t.getCell 0 (t.cursor.y + 1) = Cell.empty s0)
    (hc1 : t.getCell (t.width - 1) t.cursor.y = Cell.empty s1) :
    (t.handle [0xE4, 0xBD, 0xA0]).getCell 0 (t.cursor.y + 1)
        = Cell.occupied [0x4F60] t.cursor.style ∧
      (t.handle [0xE4, 0xBD, 0xA0]).getCell 1 (t.cursor.y + 1) = Cell.reference 1 ∧
      (t.handle [0xE4, 0xBD, 0xA0]).getCell (t.width - 1) t.cursor.y = Cell.empty s1 ∧
      (t.handle [0xE4, 0xBD, 0xA0]).cursor.y = t.cursor.y + 1 := by
  have h1 : t.handle [0xE4, 0xBD, 0xA0] = t.writeGrapheme [0x4F60] := by
    simp only [Terminal.handle]
    rw [hc]
    simp only [Option.getD_none, List.nil_append]
    rw [Terminal.eta_cache_none t hc]
    rfl
  have hcw : clusterWidth [0x4F60] = 2 := rfl
  have hdown : t.move (.down 1) = { t with cursor := { t.cursor with y := t.cursor.y + 1 } } := by
    have htr : Cursor.travel t.width t.height t.cursor (.down 1)
        = ({ t.cursor with y := t.cursor.y + 1 }, none) := by
      simp only [Cursor.travel]
      rw [if_pos (show t.cursor.y + 1 < t.height by omega)]
    simp only [Terminal.move, htr]
  have hpos : ∀ u : Terminal, u.move (.position (some 1) none)
      = { u with cursor := { u.cursor with x := 0 } } := by
    intro u
    have htr : Cursor.travel u.width u.height u.cursor (.position (some 1) none)
        = ({ u.cursor with x := 0 }, none) := by
      simp [Cursor.travel]
    simp only [Terminal.move, htr]
  have hcond : t.cursor.x + clusterWidth [0x4F60] > t.width := by
    rw [hcw, hx]; omega
  rw [h1]
  simp only [Terminal.writeGrapheme, hcw]
  rw [if_pos (by rw [hx]; omega : t.cursor.x + 2 > t.width)]
  rw [hdown, hpos]
  -- normalize the cell hypotheses to raw row reads
  simp only [Terminal.getCell, Terminal.rowFor, hs, Option.getD_none] at hc0 hc1
  -- the wrapped state reads the target cell: it is Empty, so `changed` holds
  simp only [Terminal.getCell, Terminal.rowFor, Terminal.putCell, Terminal.move,
    Cursor.travel, hs, Option.getD_none, hc0]
  have hr1 : List.range 1 = [0] := rfl
  simp only [hr1, List.foldl_cons, List.foldl_nil, Terminal.putCell,
    Terminal.rowFor, List.length_set, hs, Option.getD_none, if_true,
    Nat.add_zero, Nat.zero_add, List.set_set]
  have hilen : t.cursor.y + 1 + (t.rows.length - t.height) < t.rows.length := by omega
  have hrowlen : (t.rows.getD (t.cursor.y + 1 + (t.rows.length - t.height)) []).length
      = t.width := hlen _ (getD_mem _ _ _ hilen)
  have hrowlen2 : (t.rows[t.cursor.y + 1 + (t.rows.length - t.height)]?.getD []).length
      = t.width := by simpa using hrowlen
  rw [getD_set_self _ _ _ _ (by simpa using hilen)]
  refine ⟨?_, ?_, ?_, trivial⟩
  · rw [getD_set_self _ _ _ _ hilen, getD_set_ne _ _ _ (by omega),
      getD_set_self _ _ _ _ (by omega)]
  · rw [getD_set_self _ _ _ _ hilen,
      getD_set_self _ _ _ _ (by rw [List.length_set]; omega)]
  · rw [getD_set_ne _ _ _ (by omega)]
    exact hc1

/-- Witness for C2: the 3x2 terminal `c2t` with the cursor at the last
column receiving `你`. -/
theorem c2_witness :
    (c2t.cache = none ∧ c2t.cursor.x = c2t.width - 1 ∧ c2t.cursor.y + 1 < c2t.height) ∧
    ((c2t.handle [0xE4, 0xBD, 0xA0]).getCell 0 (c2t.cursor.y + 1)
        = Cell.occupied [0x4F60] c2t.cursor.style ∧
      (c2t.handle [0xE4, 0xBD, 0xA0]).getCell 1 (c2t.cursor.y + 1) = Cell.reference 1 ∧
      (c2t.handle [0xE4, 0xBD, 0xA0]).getCell (c2t.width - 1) c2t.cursor.y
        = Cell.empty Style.default ∧
      (c2t.handle [0xE4, 0xBD, 0xA0]).cursor.y = c2t.cursor.y + 1) := by
  refine ⟨⟨by decide, by decide, by decide⟩, ?_⟩
  exact c2_wide_wrap c2t Style.default Style.default (by decide) (by decide) (by decide)
    (by decide) (by decide) (by decide) (by decide) (by decide) (by decide)

/-- C10, amended. When the cursor stands on a Reference cell and the
grapheme fits without wrapping (cursor_x + w does not exceed cols), handling
the grapheme leaves the whole state unchanged except that the cursor moves
right to min(cursor_x + w, cols - 1): the glyph is dropped, the grid and the
touched set are untouched, and the advance is clamped at the last column. -/
theorem c10_reference_drop (t : Terminal) (g : List Nat) (k : Nat)
    (href : t.getCell t.cursor.x t.cursor.y = .reference k)
    (hfit : t.cursor.x + clusterWidth g ≤ t.width) :
    t.writeGrapheme g =
      { t with cursor :=
          { t.cursor with x := min (t.cursor.x + clusterWidth g) (t.width - 1) } } := by
  have hnw : ¬(t.cursor.x + clusterWidth g > t.width) := by omega
  simp only [Terminal.writeGrapheme, hnw, if_false, href]
  simp [Terminal.move, Cursor.travel]

/-- Witness for C10: a 2-column terminal with `你` at column 0, cursor on
the Reference cell at column 1, handling `A`. -/
theorem c10_witness :
    ((Terminal.handle (Terminal.opened cfg0 2 1) [0xE4, 0xBD, 0xA0]).getCell
        (Terminal.handle (Terminal.opened cfg0 2 1) [0xE4, 0xBD, 0xA0]).cursor.x
        (Terminal.handle (Terminal.opened cfg0 2 1) [0xE4, 0xBD, 0xA0]).cursor.y
        = Cell.reference 1 ∧
      (Terminal.handle (Terminal.opened cfg0 2 1) [0xE4, 0xBD, 0xA0]).cursor.x
          + clusterWidth [0x41] ≤
        (Terminal.handle (Terminal.opened cfg0 2 1) [0xE4, 0xBD, 0xA0]).width) ∧
    (Terminal.handle (Terminal.opened cfg0 2 1) [0xE4, 0xBD, 0xA0]).writeGrapheme [0x41] =
      { Terminal.handle (Terminal.opened cfg0 2 1) [0xE4, 0xBD, 0xA0] with cursor :=
          { (Terminal.handle (Terminal.opened cfg0 2 1) [0xE4, 0xBD, 0xA0]).cursor with
              x := min ((Terminal.handle (Terminal.opened cfg0 2 1) [0xE4, 0xBD, 0xA0]).cursor.x
                  + clusterWidth [0x41])
                ((Terminal.handle (Terminal.opened cfg0 2 1) [0xE4, 0xBD, 0xA0]).width - 1) } } := by
  refine ⟨⟨by decide, by decide⟩, ?_⟩
  exact c10_reference_drop (Terminal.handle (Terminal.opened cfg0 2 1) [0xE4, 0xBD, 0xA0]) [0x41] 1
    (by decide) (by decide)

/-! ## Parser inversion and stability lemmas (toward claim C3) -/

theorem len_dropWhile_le {α : Type} (p : α → Bool) (l : List α) :
    (l.dropWhile p).length ≤ l.length := by
  induction l with
  | nil => exact le_refl _
  | cons a l ih =>
    rw [List.dropWhile_cons]
    split_ifs
    · exact le_trans ih (Nat.le_succ _)
    · exact le_refl _

theorem parseCsi_item (r rest : List Nat) (it : Item) (h : parseCsi r = .done rest it) :
    ∃ c, it = .csi c := by
  unfold parseCsi at h
  rcases hd : r.dropWhile csiBody with _ | ⟨f, r2⟩ <;> simp only [hd] at h
  · exact absurd h (by simp)
  · split_ifs at h <;> (injection h with h1 h2; exact ⟨_, h2.symm⟩)

theorem parseOsc_item (l : List Nat) : ∀ (acc rest : List Nat) (it : Item),
    parseOsc l acc = .done rest it → ∃ cmd, it = .osc cmd := by
  induction l with
  | nil => intro acc rest it h; exact absurd h (by simp [parseOsc])
  | cons b r ih =>
    intro acc rest it h
    rw [parseOsc.eq_def] at h
    simp only [] at h
    split_ifs at h with h7 h27
    · injection h with h1 h2; exact ⟨_, h2.symm⟩
    · rcases r with _ | ⟨c, r2⟩
      · exact absurd h (by simp)
      · simp only [] at h
        split_ifs at h with h5c
        · injection h with h1 h2; exact ⟨_, h2.symm⟩
        · exact ih _ _ _ h
    · exact ih _ _ _ h

theorem parseRaw_item (l rest : List Nat) (it : Item) (h : parseRaw l = .done rest it) :
    ∃ s, it = .raw s := by
  simp only [parseRaw] at h
  split_ifs at h
  injection h with ha hb; exact ⟨_, hb.symm⟩

theorem parseEsc_no_raw (r rest : List Nat) (s : List Nat)
    (h : parseEsc r = .done rest (.raw s)) : False := by
  cases r with
  | nil => exact absurd h (by simp [parseEsc])
  | cons c r2 =>
    simp only [parseEsc] at h
    split_ifs at h with h1 h2 h3 h4
    · obtain ⟨cc, hcc⟩ := parseCsi_item _ _ _ h
      simp at hcc
    · obtain ⟨cmd, hcmd⟩ := parseOsc_item _ _ _ _ h
      simp at hcmd
    · injection h with ha hb
      simp at hb
    · rcases r2 with _ | ⟨x, xs⟩
      · exact absurd h (by simp)
      · simp only [] at h
        injection h with ha hb
        simp at hb
    · injection h with ha hb
      simp at hb

theorem parse_escape_inv (buf rest : List Nat) (h : parse buf = .done rest .escape) :
    ∃ c r2, rest = c :: r2 ∧ (c = 0x23 → r2 ≠ []) := by
  cases buf with
  | nil => exact absurd h (by simp [parse])
  | cons b r =>
    simp only [parse] at h
    split_ifs at h with hb1 hb2
    · -- ESC dispatch
      cases r with
      | nil => exact absurd h (by simp [parseEsc])
      | cons c r2 =>
        simp only [parseEsc] at h
        split_ifs at h with h1 h2 h3 h4
        · obtain ⟨cc, hcc⟩ := parseCsi_item _ _ _ h
          simp at hcc
        · obtain ⟨cmd, hcmd⟩ := parseOsc_item _ _ _ _ h
          simp at hcmd
        · injection h with ha hb
          simp at hb
        · rcases r2 with _ | ⟨x, xs⟩
          · exact absurd h (by simp)
          · simp only [] at h
            injection h with ha hb
            exact ⟨c, x :: xs, ha.symm, fun _ => by simp⟩
        · injection h with ha hb
          exact ⟨c, r2, ha.symm, fun hcontra => absurd hcontra h4⟩
    · injection h with ha hb
      simp at hb
    · obtain ⟨s, hs⟩ := parseRaw_item _ _ _ h
      simp at hs

theorem parseCsi_length (r rest : List Nat) (it : Item) (h : parseCsi r = .done rest it) :
    rest.length < r.length := by
  unfold parseCsi at h
  rcases hd : r.dropWhile csiBody with _ | ⟨f, r2⟩ <;> simp only [hd] at h
  · exact absurd h (by simp)
  · have h1 := congrArg List.length hd
    have h2 := len_dropWhile_le csiBody r
    simp only [List.length_cons] at h1
    split_ifs at h <;> (injection h with ha hb; rw [← ha]; omega)

theorem parseOsc_length (l : List Nat) : ∀ (acc rest : List Nat) (it : Item),
    parseOsc l acc = .done rest it → rest.length < l.length := by
  induction l with
  | nil => intro acc rest it h; exact absurd h (by simp [parseOsc])
  | cons b r ih =>
    intro acc rest it h
    rw [parseOsc.eq_def] at h
    simp only [] at h
    split_ifs at h with h7 h27
    · injection h with ha hb
      rw [← ha]
      exact Nat.lt_succ_self _
    · rcases r with _ | ⟨c, r2⟩
      · exact absurd h (by simp)
      · simp only [] at h
        split_ifs at h with h5c
        · injection h with ha hb
          rw [← ha]
          simp only [List.length_cons]
          omega
        · have := ih _ _ _ h
          simp only [List.length_cons] at this ⊢
          omega
    · have := ih _ _ _ h
      simp only [List.length_cons] at this ⊢
      omega

theorem parseEsc_length (r rest : List Nat) (it : Item) (h : parseEsc r = .done rest it) :
    rest.length ≤ r.length := by
  cases r with
  | nil => exact absurd h (by simp [parseEsc])
  | cons c r2 =>
    simp only [parseEsc] at h
    split_ifs at h with h1 h2 h3 h4
    · have := parseCsi_length _ _ _ h
      simp only [List.length_cons]
      omega
    · have := parseOsc_length _ _ _ _ h
      simp only [List.length_cons]
      omega
    · injection h with ha hb
      rw [← ha]
      simp only [List.length_cons]
      omega
    · rcases r2 with _ | ⟨x, xs⟩
      · exact absurd h (by simp)
      · simp only [] at h
        injection h with ha hb
        rw [← ha]
    · injection h with ha hb
      rw [← ha]

theorem parseRaw_length (b : Nat) (r rest : List Nat) (it : Item)
    (h : parseRaw (b :: r) = .done rest it) (hb : ¬ b < 0x20) :
    rest.length ≤ r.length := by
  simp only [parseRaw] at h
  split_ifs at h
  injection h with ha hbb
  have hp : (fun x => decide (0x20 ≤ x)) b = true := by
    simp
    omega
  rw [List.dropWhile_cons, if_pos hp] at ha
  rw [← ha]
  exact len_dropWhile_le _ _

theorem parse_done_length (buf rest : List Nat) (it : Item) (h : parse buf = .done rest it) :
    rest.length < buf.length := by
  cases buf with
  | nil => exact absurd h (by simp [parse])
  | cons b r =>
    simp only [parse] at h
    split_ifs at h with hb1 hb2
    · have := parseEsc_length _ _ _ h
      simp only [List.length_cons]
      omega
    · injection h with ha hb
      rw [← ha]
      exact Nat.lt_succ_self _
    · have := parseRaw_length _ _ _ _ h hb2
      simp only [List.length_cons]
      omega

theorem parseCsi_append (r rest : List Nat) (it : Item) (v : List Nat)
    (h : parseCsi r = .done rest it) : parseCsi (r ++ v) = .done (rest ++ v) it := by
  unfold parseCsi at h ⊢
  rcases hd : r.dropWhile csiBody with _ | ⟨f, r2⟩
  · simp only [hd] at h
    exact absurd h (by simp)
  · have hne : r.dropWhile csiBody ≠ [] := by rw [hd]; simp
    simp only [hd] at h
    rw [dropWhile_append_of_ne_nil v hne, takeWhile_append_of_ne_nil v hne, hd]
    simp only [List.cons_append]
    split_ifs at h ⊢ <;> (injection h with ha hb; rw [← ha, ← hb])

theorem parseOsc_append (l : List Nat) : ∀ (acc rest : List Nat) (it : Item) (v : List Nat),
    parseOsc l acc = .done rest it → parseOsc (l ++ v) acc = .done (rest ++ v) it := by
  induction l with
  | nil => intro acc rest it v h; exact absurd h (by simp [parseOsc])
  | cons b r ih =>
    intro acc rest it v h
    rw [parseOsc.eq_def] at h
    simp only [] at h
    simp only [List.cons_append]
    rw [parseOsc.eq_def]
    simp only []
    split_ifs at h ⊢ with h7 h27
    · injection h with ha hb
      rw [← ha, ← hb]
    · rcases r with _ | ⟨c, r2⟩
      · exact absurd h (by simp)
      · simp only [] at h
        simp only [List.cons_append]
        split_ifs at h ⊢ with h5c
        · injection h with ha hb
          rw [← ha, ← hb]
        · exact ih _ _ _ _ h
    · exact ih _ _ _ _ h

theorem parseEsc_append (r rest : List Nat) (it : Item) (v : List Nat)
    (h : parseEsc r = .done rest it) : parseEsc (r ++ v) = .done (rest ++ v) it := by
  cases r with
  | nil => exact absurd h (by simp [parseEsc])
  | cons c r2 =>
    simp only [parseEsc] at h
    simp only [List.cons_append, parseEsc]
    split_ifs at h ⊢ with h1 h2 h3 h4
    · exact parseCsi_append _ _ _ v h
    · exact parseOsc_append _ _ _ _ _ h
    · injection h with ha hb
      rw [← ha, ← hb]
    · rcases r2 with _ | ⟨x, xs⟩
      · exact absurd h (by simp)
      · simp only [] at h
        simp only [List.cons_append]
        injection h with ha hb
        rw [← ha, ← hb] <;> rfl
    · injection h with ha hb
      rw [← ha, ← hb] <;> rfl

theorem parseRaw_append (l rest : List Nat) (it : Item) (v : List Nat)
    (h : parseRaw l = .done rest it) (hne : rest ≠ []) :
    parseRaw (l ++ v) = .done (rest ++ v) it := by
  simp only [parseRaw] at h ⊢
  split_ifs at h with hc
  injection h with ha hb
  have hdw : l.dropWhile (fun b => decide (0x20 ≤ b)) ≠ [] := by rw [ha]; exact hne
  rw [dropWhile_append_of_ne_nil v hdw, takeWhile_append_of_ne_nil v hdw]
  rw [if_neg (fun hcc => hdw (List.append_eq_nil.mp hcc.1).1)]
  rw [ha, hb]

theorem parse_append (buf rest : List Nat) (it : Item) (v : List Nat)
    (h : parse buf = .done rest it) (hraw : ∀ s, it = .raw s → rest ≠ []) :
    parse (buf ++ v) = .done (rest ++ v) it := by
  cases buf with
  | nil => exact absurd h (by simp [parse])
  | cons b r =>
    simp only [parse] at h
    simp only [List.cons_append, parse]
    split_ifs at h ⊢ with hb1 hb2
    · exact parseEsc_append _ _ _ v h
    · injection h with ha hb
      rw [← ha, ← hb]
    · obtain ⟨s, hs⟩ := parseRaw_item _ _ _ h
      have hne : rest ≠ [] := hraw s hs
      have := parseRaw_append (b :: r) rest it v h hne
      simpa using this

theorem parseRaw_all_append (l : List Nat) (s : List Nat) (b : Nat) (v : List Nat)
    (h : parseRaw l = .done [] (.raw s)) (hb : b < 0x20) :
    parseRaw (l ++ b :: v) = .done (b :: v) (.raw s) := by
  simp only [parseRaw] at h ⊢
  split_ifs at h with hc
  injection h with ha hbb
  have hall : ∀ x ∈ l, (fun y => decide (0x20 ≤ y)) x = true :=
    List.dropWhile_eq_nil_iff.mp ha
  have hpb : (fun y => decide (0x20 ≤ y)) b = false := by
    simp
    omega
  rw [takeWhile_append_all v hall hpb, dropWhile_append_all v hall hpb]
  rw [if_neg (by simp)]
  have htake : l.takeWhile (fun y => decide (0x20 ≤ y)) = l := by
    have h2 := List.takeWhile_append_dropWhile (fun y : Nat => decide (0x20 ≤ y)) l
    rw [ha, List.append_nil] at h2
    exact h2
  rw [htake] at hbb
  rw [hbb]

theorem parse_raw_nil_append (buf : List Nat) (s : List Nat) (b : Nat) (v : List Nat)
    (h : parse buf = .done [] (.raw s)) (hb : b < 0x20) :
    parse (buf ++ b :: v) = .done (b :: v) (.raw s) := by
  cases buf with
  | nil => exact absurd h (by simp [parse])
  | cons b0 r =>
    simp only [parse] at h
    simp only [List.cons_append, parse]
    split_ifs at h ⊢ with hb1 hb2
    · exact (parseEsc_no_raw _ _ _ h).elim
    · injection h with ha hbad
      simp at hbad
    · have := parseRaw_all_append (b0 :: r) s b v h hb
      simpa using this


/-! ## Step and process lemmas (toward claim C3) -/

namespace Terminal

theorem stepEscape_cache (t : Terminal) (input : List Nat) :
    (t.stepEscape input).1.cache = t.cache := by
  cases input with
  | nil => rfl
  | cons code input1 =>
    simp only [stepEscape]
    split_ifs with h1 h2 h3 h4 h5
    · cases input1 with
      | nil => rfl
      | cons code2 input2 =>
        dsimp only
        split_ifs <;>
          first
            | exact decaln_cache t
            | exact decbi_cache t
            | exact decfi_cache t
            | rfl
    · rfl
    · cases t.saved <;> rfl
    · rfl
    · rfl
    · rfl

theorem step_cache (t : Terminal) (it : Item) (input : List Nat) :
    (t.step it input).1.cache = t.cache := by
  cases it <;> simp only [step] <;>
    first
      | exact stepEscape_cache t input
      | exact applyItem_cache t _

theorem step_length (t : Terminal) (it : Item) (input : List Nat) :
    (t.step it input).2.length ≤ input.length := by
  cases it <;> simp only [step] <;> try exact le_refl _
  case escape =>
    cases input with
    | nil => exact le_refl _
    | cons code input1 =>
      simp only [stepEscape]
      split_ifs with h1 h2 h3 h4 h5
      · cases input1 with
        | nil => exact Nat.le_succ _
        | cons code2 input2 =>
          simp only []
          split_ifs <;> exact le_trans (Nat.le_succ _) (Nat.le_succ _)
      · exact Nat.le_succ _
      · cases t.saved <;> exact Nat.le_succ _
      · exact Nat.le_succ _
      · exact Nat.le_succ _
      · exact Nat.le_succ _

theorem step_append (t : Terminal) (it : Item) (input v : List Nat)
    (hinv : it = .escape → input ≠ [] ∧ ∀ r, input = 0x23 :: r → r ≠ []) :
    t.step it (input ++ v) = ((t.step it input).1, (t.step it input).2 ++ v) := by
  cases it <;> simp only [step] <;> try rfl
  case escape =>
    obtain ⟨hne, h23⟩ := hinv rfl
    cases input with
    | nil => exact absurd rfl hne
    | cons code input1 =>
      simp only [List.cons_append, stepEscape]
      split_ifs with h1 h2 h3 h4 h5
      · have hne1 : input1 ≠ [] := h23 input1 (by rw [h1])
        cases input1 with
        | nil => exact absurd rfl hne1
        | cons code2 input2 =>
          simp only [List.cons_append]
          split_ifs <;> rfl
      · rfl
      · cases t.saved <;> rfl
      · rfl
      · rfl
      · rfl

theorem processF_congr : ∀ (n f g : Nat) (t : Terminal) (buf : List Nat),
    buf.length ≤ n → buf.length < f → buf.length < g →
    processF f t buf = processF g t buf := by
  intro n
  induction n with
  | zero =>
    intro f g t buf h hf hg
    have hb : buf = [] := List.length_eq_zero.mp (Nat.le_zero.mp h)
    subst hb
    cases f with
    | zero => omega
    | succ f =>
      cases g with
      | zero => omega
      | succ g => rfl
  | succ n ih =>
    intro f g t buf h hf hg
    cases f with
    | zero => omega
    | succ f =>
      cases g with
      | zero => omega
      | succ g =>
        by_cases hb : buf = []
        · subst hb
          rfl
        · simp only [processF, if_neg hb]
          cases hp : parse buf with
          | incomplete => rfl
          | done rest it =>
            have hlt := parse_done_length _ _ _ hp
            have hsl := step_length t it rest
            refine ih f g (t.step it rest).1 (t.step it rest).2 ?_ ?_ ?_ <;> omega

theorem process_done (t : Terminal) (buf rest : List Nat) (it : Item)
    (hp : parse buf = .done rest it) :
    t.process buf = Terminal.process (t.step it rest).1 (t.step it rest).2 := by
  have hb : buf ≠ [] := by
    intro he
    rw [he] at hp
    exact absurd hp (by simp [parse])
  have hlt := parse_done_length _ _ _ hp
  have hsl := step_length t it rest
  have h1 : t.process buf = processF buf.length (t.step it rest).1 (t.step it rest).2 := by
    simp only [Terminal.process, processF, if_neg hb, hp]
  rw [h1]
  show processF buf.length (t.step it rest).1 (t.step it rest).2
      = processF ((t.step it rest).2.length + 1) (t.step it rest).1 (t.step it rest).2
  refine processF_congr buf.length buf.length ((t.step it rest).2.length + 1)
    (t.step it rest).1 (t.step it rest).2 ?_ ?_ ?_ <;> omega

theorem process_incomplete (t : Terminal) (buf : List Nat) (hb : buf ≠ [])
    (hp : parse buf = .incomplete) : t.process buf = { t with cache := some buf } := by
  simp only [Terminal.process, processF, if_neg hb, hp]

end Terminal

/-- A split position is safe when the second part is empty, starts with a
control byte (below 0x20), or the first part left a cached incomplete
tail.  (The counterexample `c3_counterexample` shows that a split inside a
raw-text run, which none of these cover, can change the result.) -/
def splitSafe (t : Terminal) (s1 s2 : List Nat) : Prop :=
  s2 = [] ∨ (∃ b v, s2 = b :: v ∧ b < 0x20) ∨ (t.handle s1).cache ≠ none

/-- Core append lemma for the processing loop: continuing from the cached
state is the same as processing the concatenated buffer, provided the
safety condition holds. -/
theorem process_append : ∀ (n : Nat) (t : Terminal) (buf v : List Nat), buf.length ≤ n →
    t.cache = none →
    (v = [] ∨ (∃ b v', v = b :: v' ∧ b < 0x20) ∨ (t.process buf).cache ≠ none) →
    Terminal.process { t.process buf with cache := none } ((t.process buf).cache.getD [] ++ v)
      = t.process (buf ++ v) := by
  intro n
  induction n with
  | zero =>
    intro t buf v h hc hv
    have hb : buf = [] := List.length_eq_zero.mp (Nat.le_zero.mp h)
    subst hb
    rw [show Terminal.process t [] = t from rfl]
    rw [hc]
    rw [Terminal.eta_cache_none t hc]
    rfl
  | succ n ih =>
    intro t buf v h hc hv
    by_cases hb : buf = []
    · subst hb
      rw [show Terminal.process t [] = t from rfl]
      rw [hc]
      rw [Terminal.eta_cache_none t hc]
      rfl
    · cases hp : parse buf with
      | incomplete =>
        rw [Terminal.process_incomplete t buf hb hp]
        have h1 : ({ ({ t with cache := some buf } : Terminal) with cache := none } : Terminal)
            = t := by
          have h0 : ({ ({ t with cache := some buf } : Terminal) with cache := none } :
              Terminal) = ({ t with cache := none } : Terminal) := rfl
          rw [h0, Terminal.eta_cache_none t hc]
        have h2 : (({ t with cache := some buf } : Terminal)).cache.getD [] = buf := rfl
        rw [h1, h2]
      | done rest it =>
        have hstep := Terminal.step_cache t it rest
        have hlen := parse_done_length _ _ _ hp
        have hslen := Terminal.step_length t it rest
        by_cases hrawnil : (∃ s, it = .raw s) ∧ rest = []
        · -- a raw run reaching the end of the buffer
          obtain ⟨⟨s, hits⟩, hrest⟩ := hrawnil
          subst hits
          subst hrest
          have hpd := Terminal.process_done t buf [] (.raw s) hp
          have hstep2 : t.step (.raw s) [] = (t.applyItem (.raw s), []) := rfl
          rw [hstep2] at hpd
          dsimp only at hpd
          have hcache2 : (t.applyItem (.raw s)).cache = none := by
            rw [Terminal.applyItem_cache]
            exact hc
          have hproc : t.process buf = t.applyItem (.raw s) := by
            rw [hpd]
            rfl
          rcases hv with hv | ⟨bb, vv, hveq, hblt⟩ | hv
          · subst hv
            simp only [List.append_nil]
            rw [hproc, hcache2]
            simp only [Option.getD_none, List.nil_append]
            rw [Terminal.eta_cache_none _ hcache2]
            rfl
          · subst hveq
            have hp2 : parse (buf ++ bb :: vv) = .done (bb :: vv) (.raw s) :=
              parse_raw_nil_append buf s bb vv hp hblt
            rw [Terminal.process_done t (buf ++ bb :: vv) (bb :: vv) (.raw s) hp2]
            have hstep3 : t.step (.raw s) (bb :: vv) = (t.applyItem (.raw s), bb :: vv) := rfl
            rw [hstep3]
            dsimp only
            rw [hproc, hcache2]
            simp only [Option.getD_none, List.nil_append]
            rw [Terminal.eta_cache_none _ hcache2]
          · rw [hproc, hcache2] at hv
            exact absurd rfl hv
        · -- a self-delimiting item (or a raw run with a nonempty rest)
          have hraw : ∀ s, it = .raw s → rest ≠ [] := by
            intro s hits hrest
            exact hrawnil ⟨⟨s, hits⟩, hrest⟩
          have hp2 : parse (buf ++ v) = .done (rest ++ v) it := parse_append _ _ _ v hp hraw
          have hinv : it = .escape → rest ≠ [] ∧ ∀ r, rest = 0x23 :: r → r ≠ [] := by
            intro hesc
            subst hesc
            obtain ⟨c, r2, hr, h23⟩ := parse_escape_inv buf rest hp
            subst hr
            refine ⟨by simp, ?_⟩
            intro r hr2
            injection hr2 with hc1 hc2
            subst hc2
            exact h23 hc1
          have hsa := Terminal.step_append t it rest v hinv
          rw [Terminal.process_done t buf rest it hp, Terminal.process_done t (buf ++ v)
            (rest ++ v) it hp2, hsa]
          dsimp only
          have hc2 : (t.step it rest).1.cache = none := by rw [hstep]; exact hc
          exact ih (t.step it rest).1 (t.step it rest).2 v (by omega) hc2
            (by rwa [← Terminal.process_done t buf rest it hp])

/-- C3, amended. Splitting the byte stream S at position i and feeding the
halves to handle() in order produces the same final state (grid, cursor,
mode, and every other field) as feeding S in one call, PROVIDED the split
does not land inside a raw-text run: it suffices that the second half be
empty, start with a control byte, or that the first call left a cached
incomplete control tail.  (A split inside a raw run can change the result
because grapheme clusters are segmented per call; see the
counterexample.) -/
theorem c3_split_equivalence (t : Terminal) (s : List Nat) (i : Nat)
    (hsafe : splitSafe t (s.take i) (s.drop i)) :
    Terminal.handle (Terminal.handle t (s.take i)) (s.drop i) = Terminal.handle t s := by
  have hkey := process_append ((t.cache.getD [] ++ s.take i).length) { t with cache := none }
    (t.cache.getD [] ++ s.take i) (s.drop i) (le_refl _) rfl ?hsafe2
  case hsafe2 =>
    rcases hsafe with hs | hs | hs
    · exact Or.inl hs
    · exact Or.inr (Or.inl hs)
    · exact Or.inr (Or.inr hs)
  rw [Terminal.handle, Terminal.handle, Terminal.handle]
  rw [hkey, List.append_assoc, List.take_append_drop]

/-- Witness for C3 (amended): the split "a" / LF of the stream "a\n"; the
second half starts with the control byte 0x0A. -/
theorem c3_witness :
    splitSafe (Terminal.opened cfg0 2 2) ([0x61, 0x0A].take 1) ([0x61, 0x0A].drop 1) ∧
      Terminal.handle (Terminal.handle (Terminal.opened cfg0 2 2) ([0x61, 0x0A].take 1))
          ([0x61, 0x0A].drop 1)
        = Terminal.handle (Terminal.opened cfg0 2 2) [0x61, 0x0A] := by
  constructor
  · exact Or.inr (Or.inl ⟨0x0A, [], rfl, by omega⟩)
  · exact c3_split_equivalence (Terminal.opened cfg0 2 2) [0x61, 0x0A] 1
      (Or.inr (Or.inl ⟨0x0A, [], rfl, by omega⟩))

/-- C10, counterexample. The claimed "the cursor still advances to the
right by the grapheme's display width" fails at the right margin: on a 2x1
screen `你` occupies column 0 with a Reference at column 1 and leaves the
cursor clamped at column 1 (on the Reference cell); a following `A` is
dropped (grid and touched set unchanged) but the cursor stays at column 1
instead of advancing by 1. -/
theorem c10_counterexample :
    ((Terminal.handle (Terminal.opened cfg0 2 1) [0xE4, 0xBD, 0xA0]).cursor.x = 1 ∧
      (Terminal.handle (Terminal.opened cfg0 2 1) [0xE4, 0xBD, 0xA0]).getCell 1 0
        = Cell.reference 1) ∧
    (Terminal.handle (Terminal.opened cfg0 2 1) [0xE4, 0xBD, 0xA0, 0x41]).rows
        = (Terminal.handle (Terminal.opened cfg0 2 1) [0xE4, 0xBD, 0xA0]).rows ∧
    (Terminal.handle (Terminal.opened cfg0 2 1) [0xE4, 0xBD, 0xA0, 0x41]).touched
        = (Terminal.handle (Terminal.opened cfg0 2 1) [0xE4, 0xBD, 0xA0]).touched ∧
    (Terminal.handle (Terminal.opened cfg0 2 1) [0xE4, 0xBD, 0xA0, 0x41]).cursor.x ≠
      (Terminal.handle (Terminal.opened cfg0 2 1) [0xE4, 0xBD, 0xA0]).cursor.x +
        clusterWidth [0x41] := by
  decide

end Cancer
